import Mathlib

/-!
# Verification of the tdsanalizer log-analysis scripts

A shallow embedding, in Lean 4, of the parts of the `tdsanalizer` repository
that the specification's claims are about:

* the universal `prefix+suffix-value` field extraction of
  `advanced_log_parser.py` (`AdvancedLogParser._extract_all_indicator_fields`)
  and `true_data_driven_analyzer.py`
  (`TrueDataDrivenAnalyzer.parse_line_all_fields`);
* the extrema-event detection of `true_data_driven_analyzer.py`;
* the per-field ROC-AUC thresholding of `ltf_htf_analyzer.py`
  (`_find_thresholds_for_type`);
* the blocking-field discovery and rule application of `veto_system.py`;
* the scoring API of `scoring_api.py` (`parse_log_line`, `calculate_score`,
  `RealTimeScoringAPI.process_realtime_line`).

Python floats are modelled as `Rat`, Python strings and lists of characters
as `String`/`List Char`, dictionaries as association lists with
assignment-overwrite semantics, and raised exceptions as `Except` values.
-/

namespace TDS

/-- A value stored in a parsed-field dictionary: Python code stores either a
number (`int`/`float`, modelled as `Rat`) or a string under a field name. -/
inductive PyVal where
  | num (q : Rat)
  | str (s : String)
deriving DecidableEq, Repr

/-- Parsed data dictionaries (`dict[str, ...]` in Python), as association
lists. -/
abbrev PyDict := List (String × PyVal)

/-- `d[k] = v` on a Python dict: any previous binding of `k` is replaced.
(The position of the updated key differs from CPython's insertion-order
semantics, but lookups agree.) -/
def dictSet (d : PyDict) (k : String) (v : PyVal) : PyDict :=
  (d.filter (fun p => p.1 ≠ k)) ++ [(k, v)]

/-- Run a list of `data[k] = v` assignments left to right. -/
def applyAssignments (d : PyDict) (assigns : List (String × PyVal)) : PyDict :=
  assigns.foldl (fun acc kv => dictSet acc kv.1 kv.2) d

/-- The regex character class `[a-zA-Z]`. -/
def isAlphaChar (c : Char) : Bool :=
  ('a' ≤ c && c ≤ 'z') || ('A' ≤ c && c ≤ 'Z')

/-- The regex character class `\d` (the log data is ASCII, so Unicode digit
categories do not arise). -/
def isDigitChar (c : Char) : Bool := '0' ≤ c && c ≤ '9'

/-- Take the leading run of decimal digits: `(digits, rest)`. -/
def takeDigits (cs : List Char) : List Char × List Char :=
  (cs.takeWhile isDigitChar, cs.dropWhile isDigitChar)

/-- The numeric value of a digit run (most significant first). -/
def digitsToNat (cs : List Char) : Nat :=
  Nat.ofDigits 10 ((cs.map (fun c => c.toNat - '0'.toNat)).reverse)

/-- The value of the decimal literal `a.b` for digit runs `a` and `b`. -/
def decimalVal (a b : List Char) : Rat :=
  (digitsToNat a : Rat) + (digitsToNat b : Rat) / (10 : Rat) ^ b.length

/-- The unsigned part of a Python `float` literal: `d+`, `d+.d*` or
`.d+`. -/
def pyFloatUnsigned? (cs : List Char) : Option Rat :=
  let (intPart, r₁) := takeDigits cs
  match r₁ with
  | [] =>
      if intPart.isEmpty then none else some ((digitsToNat intPart : Rat))
  | '.' :: t =>
      let (fracPart, r₂) := takeDigits t
      if ¬ r₂.isEmpty then none
      else if intPart.isEmpty ∧ fracPart.isEmpty then none
      else some (decimalVal intPart fracPart)
  | _ => none

/-- Python `float(s)` on simple decimal literals: optional sign, then
`d+`, `d+.d*` or `.d+` (the log values never use exponents, `inf`/`nan`,
underscores or surrounding whitespace).  `none` models the `ValueError`
that `float` raises on anything else. -/
def pyFloat? (cs : List Char) : Option Rat :=
  match cs with
  | '-' :: t => (pyFloatUnsigned? t).map Neg.neg
  | '+' :: t => pyFloatUnsigned? t
  | _ => pyFloatUnsigned? cs

/-! ## `scoring_api.py`: `ScoringAPI.parse_log_line` -/

/-- Python `str.strip()`: drop whitespace from both ends. -/
def pyStrip (cs : List Char) : List Char :=
  ((cs.dropWhile Char.isWhitespace).reverse.dropWhile Char.isWhitespace).reverse

/-- Python `str.split(sep)` for a one-character separator: split at every
occurrence, keeping empty pieces (`"".split('|') == ['']`). -/
def splitOnChar (sep : Char) : List Char → List (List Char)
  | [] => [[]]
  | x :: xs =>
      match splitOnChar sep xs with
      | [] => [[]]
      | h :: t => if x = sep then [] :: h :: t else (x :: h) :: t

/-- `ScoringAPI._parse_percentage`: strip `%` and convert with `float`,
returning `0.0` on `ValueError`. -/
def parsePercentage (s : List Char) : Rat :=
  let t := if s.contains '%' then s.filter (fun c => c ≠ '%') else s
  (pyFloat? t).getD 0

/-- `ScoringAPI._parse_volume`: uppercase, scale a trailing `K`/`M`, convert
with `float`, returning `0.0` on `ValueError`.  (Python's `replace` removes
every occurrence of the letter, wherever it is.) -/
def parseVolume (s : List Char) : Rat :=
  let u := s.map Char.toUpper
  if u.contains 'K' then ((pyFloat? (u.filter (fun c => c ≠ 'K'))).getD 0) * 1000
  else if u.contains 'M' then ((pyFloat? (u.filter (fun c => c ≠ 'M'))).getD 0) * 1000000
  else (pyFloat? u).getD 0

/-- The `try:` block of `ScoringAPI.parse_log_line`.  `.ok d` is a normal
`return d`; `.error d` records that an exception escaped the block while the
accumulated dictionary was `d` (the enclosing handler then returns `d`).

The function body does `import re` only *after* its first use of
`re.search`, which makes `re` an unbound local name there: every line that
passes the `'|'`/six-part guards raises `UnboundLocalError` at the OHLC
search, so only the color / price-change / volume data accumulated before
that point survives. -/
def parseLogLineBody (line : String) : Except PyDict PyDict :=
  let cs := line.toList
  if ¬ cs.contains '|' then .ok []
  else
    let parts := splitOnChar '|' cs
    if parts.length < 6 then .ok []
    else
      let d₁ := dictSet [] "color" (.str (String.mk (parts.getD 4 [])))
      let d₂ := dictSet d₁ "price_change" (.num (parsePercentage (parts.getD 5 [])))
      let d₃ := dictSet d₂ "volume"
        (if parts.length > 6 then .num (parseVolume (parts.getD 6 [])) else .num 0)
      .error d₃

/-- `ScoringAPI.parse_log_line`.  A non-string argument is modelled as
`none`; a blank string fails the `log_line.strip()` truthiness test.  The
`except Exception` handler prints and falls through to `return data`. -/
def parseLogLine (line : Option String) : PyDict :=
  match line with
  | none => []
  | some l =>
    if pyStrip l.toList = [] then []
    else
      match parseLogLineBody l with
      | .ok d => d
      | .error d => d

/-! ## `scoring_api.py`: `ScoringAPI.calculate_score` -/

/-- One entry of the `feature_contributions` dictionary built by
`calculate_score`. -/
structure Contribution where
  value : Rat
  threshold : Rat
  weight : Rat
  contribution : Rat
deriving DecidableEq, Repr

/-- The dictionary returned by `calculate_score` (`isError` marks the
`{'error': ..., 'score': 0, 'confidence': 0}` shape). -/
structure ScoreResult where
  score : Rat
  confidence : Rat
  activeFeatures : Nat
  contributions : List (String × Contribution)
  isError : Bool
deriving DecidableEq, Repr

/-- Loop state of `calculate_score`: running raw score, count of active
features and the accumulated contributions. -/
abbrev ScoreState := Rat × Nat × List (String × Contribution)

/-- One iteration of the `for field_name, threshold in self.thresholds.items()`
loop.  `.error ()` is the `ZeroDivisionError` raised by
`abs(field_value) / threshold` when the configured threshold is zero. -/
def scoreStep (weights : List (String × Rat)) (data : PyDict)
    (st : ScoreState) (ft : String × Rat) : Except Unit ScoreState :=
  match List.lookup ft.1 data with
  | some (.num v) =>
      if |v| > ft.2 then
        let w := (List.lookup (ft.1 ++ "_activated") weights).getD 0
        if w > 0 then
          if ft.2 = 0 then .error ()
          else
            let c := w * min (|v| / ft.2) 3
            .ok (st.1 + c, st.2.1 + 1, st.2.2 ++ [(ft.1, ⟨v, ft.2, w, c⟩)])
        else .ok st
      else .ok st
  | _ => .ok st

/-- The whole threshold loop of `calculate_score`. -/
def scoreLoop (weights : List (String × Rat)) (data : PyDict) :
    List (String × Rat) → ScoreState → Except Unit ScoreState
  | [], st => .ok st
  | ft :: ts, st =>
      match scoreStep weights data st ft with
      | .error e => .error e
      | .ok st' => scoreLoop weights data ts st'

/-- `ScoringAPI.calculate_score`.  `isReady` is the `self.is_ready` flag set
by `load_configuration`; `thresholds` and `weights` are the configuration
dictionaries (iterated in insertion order). -/
def calculateScore (isReady : Bool) (thresholds weights : List (String × Rat))
    (data : PyDict) : ScoreResult :=
  if ¬ isReady then ⟨0, 0, 0, [], true⟩
  else
    match scoreLoop weights data thresholds (0, 0, []) with
    | .error _ => ⟨0, 0, 0, [], true⟩
    | .ok (score, active, contribs) =>
        if active > 0 then
          ⟨min (score / (active : Rat)) 1, min ((active : Rat) / 5) 1, active, contribs, false⟩
        else ⟨0, 0, active, contribs, false⟩

/-! ## `scoring_api.py`: `RealTimeScoringAPI.process_realtime_line` -/

/-- `RealTimeScoringAPI.max_history`. -/
def maxHistory : Nat := 1000

/-- The part of `RealTimeScoringAPI.process_realtime_line` that updates
`self.recent_scores`: append the new result, then keep only the last
`max_history` entries when the list has grown beyond that bound.  (The
trend/alert computation that follows reads but never changes the list.) -/
def processRealtimeLine {α : Type} (recentScores : List α) (result : α) : List α :=
  let h := recentScores ++ [result]
  if h.length > maxHistory then h.drop (h.length - maxHistory) else h

/-! ## `advanced_log_parser.py`: `AdvancedLogParser.parse_log_file` -/

/-- `AdvancedLogParser.parse_log_file`, parameterised by the per-line parser
`p` (the real `_parse_single_line`, which can raise — `.error` — or return
`None` — `.ok none`).  Mirrors the `for i, line in enumerate(lines)` loop:
each line is stripped and parsed under `try`/`except`; a raised exception is
printed and the loop continues with the next line; `None` records are
dropped.  An empty record list yields the empty DataFrame, modelled as
`[]`. -/
def parseLogFileLoop {ρ : Type} (p : String → Nat → Except String (Option ρ)) :
    List String → Nat → List ρ
  | [], _ => []
  | l :: ls, i =>
      match p (String.mk (pyStrip l.toList)) i with
      | .ok (some r) => r :: parseLogFileLoop p ls (i + 1)
      | .ok none => parseLogFileLoop p ls (i + 1)
      | .error _ => parseLogFileLoop p ls (i + 1)

/-- `AdvancedLogParser.parse_log_file` on the list of lines of the file. -/
def parseLogFile {ρ : Type} (p : String → Nat → Except String (Option ρ))
    (lines : List String) : List ρ :=
  parseLogFileLoop p lines 0

/-- A sample per-line parser used only to exercise `parseLogFile` on concrete
input: raises on `"bad"`, yields no record on `""`, and otherwise records the
line's length. -/
def sampleLineParse (l : String) (i : Nat) : Except String (Option (Nat × Nat)) :=
  if l = "bad" then .error "boom"
  else if l = "" then .ok none
  else .ok (some (i, l.length))

/-! ## The universal field regexes

`AdvancedLogParser._create_field_patterns` uses

  `([a-zA-Z]+)(\d+|1h|4h|1d|1w)-([!-]+|\-?\d+(?:\.\d+)?(?:%)?)`

and `TrueDataDrivenAnalyzer.parse_line_all_fields` uses

  `([a-zA-Z]+)(\d+|1h|4h|1d|1w)-((?:!+)|(?:--?\d+(?:\.\d+)?(?:%)?)|(?:-?\d+(?:\.\d+)?(?:%)?))`.

The two patterns share everything up to the value group, so the matcher
below is parameterised by the value grammar.  Python's `re` uses leftmost
matching with ordered alternation and greedy repetition; because nothing
follows the value group, the value alternatives never backtrack, and
because every suffix alternative starts with a digit, the greedy
`[a-zA-Z]+` never backtracks either.  A proper prefix of the maximal digit
run is followed by a digit, never by the literal `-`, so `\d+` also needs
no backtracking; when the `\d+` branch fails, the literal alternatives
`1h`,`4h`,`1d`,`1w` are tried in order. -/

/-- The character class `[!-]` of the first value alternative of the
`AdvancedLogParser` pattern. -/
def isBangDash (c : Char) : Bool := c = '!' || c = '-'

/-- `\-?\d+(?:\.\d+)?(?:%)?` without the sign: greedy digits, an optional
`.digits` group (which matches nothing when the dot is not followed by a
digit), then an optional `%`. -/
def matchUnsignedNum (cs : List Char) : Option (List Char × List Char) :=
  let (ds, r₁) := takeDigits cs
  if ds.isEmpty then none
  else
    let (frac, r₂) :=
      match r₁ with
      | '.' :: t =>
          let (fs, r) := takeDigits t
          if fs.isEmpty then (([] : List Char), r₁) else ('.' :: fs, r)
      | _ => ([], r₁)
    match r₂ with
    | '%' :: t => some (ds ++ frac ++ ['%'], t)
    | _ => some (ds ++ frac, r₂)

/-- Value group of the `AdvancedLogParser` pattern:
`[!-]+|\-?\d+(?:\.\d+)?(?:%)?`.  The first alternative wins whenever the
head character is `!` or `-`, greedily taking the whole `[!-]` run; only
otherwise is the (then necessarily unsigned) number alternative tried. -/
def matchValueAdv (cs : List Char) : Option (List Char × List Char) :=
  match cs with
  | c :: _ =>
      if isBangDash c then
        let v := cs.takeWhile isBangDash
        some (v, cs.drop v.length)
      else matchUnsignedNum cs
  | [] => none

/-- Value group of the `TrueDataDrivenAnalyzer` pattern:
`(?:!+)|(?:--?\d+(?:\.\d+)?(?:%)?)|(?:-?\d+(?:\.\d+)?(?:%)?)`.  For a head
`-` the second alternative consumes one or two dashes and then needs digits
(the third alternative would fail at the same place, so no extra case is
needed); for any other head only the bang and unsigned alternatives can
apply. -/
def matchValueTDA (cs : List Char) : Option (List Char × List Char) :=
  let bangs := cs.takeWhile (fun c => c = '!')
  if ¬ bangs.isEmpty then some (bangs, cs.drop bangs.length)
  else
    match cs with
    | '-' :: '-' :: t₂ => (matchUnsignedNum t₂).map (fun vr => ('-' :: '-' :: vr.1, vr.2))
    | '-' :: t => (matchUnsignedNum t).map (fun vr => ('-' :: vr.1, vr.2))
    | _ => matchUnsignedNum cs

/-- A regex match of the universal pattern: the three captured groups and
the text following the match. -/
structure UniMatch where
  pre : List Char
  suf : List Char
  val : List Char
  rest : List Char
deriving DecidableEq, Repr

/-- Try the literal suffix alternative `lit` (one of `1h`,`4h`,`1d`,`1w`)
followed by the literal `-` and the value group. -/
def trySuffixLit (valueFn : List Char → Option (List Char × List Char))
    (lit : List Char) (cs : List Char) : Option (List Char × List Char × List Char) :=
  if cs.take lit.length = lit then
    match cs.drop lit.length with
    | '-' :: t => (valueFn t).map (fun vr => (lit, vr.1, vr.2))
    | _ => none
  else none

/-- Match `(\d+|1h|4h|1d|1w)-(value)` at the current position (right after
the captured letters): the `\d+` alternative first, then the four literal
timeframe alternatives in pattern order. -/
def matchSuffixValue (valueFn : List Char → Option (List Char × List Char))
    (cs : List Char) : Option (List Char × List Char × List Char) :=
  let (ds, r) := takeDigits cs
  let viaDigits : Option (List Char × List Char × List Char) :=
    if ds.isEmpty then none
    else
      match r with
      | '-' :: t => (valueFn t).map (fun vr => (ds, vr.1, vr.2))
      | _ => none
  match viaDigits with
  | some x => some x
  | none =>
      (trySuffixLit valueFn ['1', 'h'] cs).orElse fun _ =>
      (trySuffixLit valueFn ['4', 'h'] cs).orElse fun _ =>
      (trySuffixLit valueFn ['1', 'd'] cs).orElse fun _ =>
      trySuffixLit valueFn ['1', 'w'] cs

/-- Attempt the whole universal pattern anchored at the current position. -/
def tryMatchUni (valueFn : List Char → Option (List Char × List Char))
    (cs : List Char) : Option UniMatch :=
  let pre := cs.takeWhile isAlphaChar
  if pre.isEmpty then none
  else
    (matchSuffixValue valueFn (cs.drop pre.length)).map
      (fun svr => ⟨pre, svr.1, svr.2.1, svr.2.2⟩)

/-- `re.findall` scanning: try a match at every position, emit the groups of
each match and continue after it, otherwise advance one character.  `fuel`
bounds the recursion; every step consumes at least one character, so
`fuel = cs.length` is exact. -/
def findAllUniFuel (valueFn : List Char → Option (List Char × List Char)) :
    Nat → List Char → List (List Char × List Char × List Char)
  | 0, _ => []
  | fuel + 1, cs =>
      match tryMatchUni valueFn cs with
      | some m => (m.pre, m.suf, m.val) :: findAllUniFuel valueFn fuel m.rest
      | none =>
          match cs with
          | [] => []
          | _ :: t => findAllUniFuel valueFn fuel t

/-- All matches of the universal pattern in a line
(`re.findall` / `re.finditer` group triples, in order). -/
def findAllUni (valueFn : List Char → Option (List Char × List Char))
    (cs : List Char) : List (List Char × List Char × List Char) :=
  findAllUniFuel valueFn cs.length cs

/-! ## `AdvancedLogParser._extract_all_indicator_fields` -/

/-- `self.ltf_field_prefixes` (a Python `set`; membership only). -/
def ltfFieldPrefixSet : List String :=
  ["rd", "md", "cd", "cmd", "macd", "cvd", "dd", "ed", "sd",
   "ro", "mo", "co", "cz", "do", "so", "rz", "mz", "ciz", "sz",
   "dz", "cvz", "maz", "ef", "vc", "ze", "nw", "as", "vw"]

/-- `self.htf_field_prefixes` (the source lists `dz` twice; a set keeps
one). -/
def htfFieldPrefixSet : List String :=
  ["rd", "md", "cd", "cmd", "macd", "od", "dd", "cvd", "drd", "ad",
   "ed", "hd", "sd", "ro", "mo", "co", "cz", "do", "ae", "so",
   "rz", "mz", "ciz", "sz", "dz", "ef", "wv", "vc", "ze", "nw",
   "cvz", "maz", "oz"]

/-- `self.ltf_suffixes = {'2', '5', '15', '30'}`. -/
def ltfSuffixSet : List String := ["2", "5", "15", "30"]

/-- `self.htf_suffixes = {'1h', '4h', '1d', '1w'}`. -/
def htfSuffixSet : List String := ["1h", "4h", "1d", "1w"]

/-- `value.replace('-', '').replace('.', '').replace('%', '')`. -/
def pyStripNumChars (v : List Char) : List Char :=
  v.filter (fun c => c ≠ '-' ∧ c ≠ '.' ∧ c ≠ '%')

/-- Python `str.isdigit`: nonempty and all characters digits. -/
def pyIsDigitStr (v : List Char) : Bool :=
  ¬ v.isEmpty && v.all isDigitChar

/-- The body of the `for prefix, suffix, value in universal_matches:` loop of
`AdvancedLogParser._extract_all_indicator_fields`, as the list of dictionary
assignments it performs for one match triple. -/
def processTripleAdv (g : List Char × List Char × List Char) :
    List (String × PyVal) :=
  let prefixStr := String.mk g.1
  let suffixStr := String.mk g.2.1
  let v := g.2.2
  let fieldName := prefixStr ++ suffixStr
  let isLtf := suffixStr ∈ ltfSuffixSet
  let isHtf := suffixStr ∈ htfSuffixSet
  let validLtf := isLtf ∧ prefixStr ∈ ltfFieldPrefixSet
  let validHtf := isHtf ∧ prefixStr ∈ htfFieldPrefixSet
  if validLtf ∨ validHtf then
    if prefixStr = "nw" ∧ v.contains '!' then
      [(fieldName, .num v.length), (fieldName ++ "_signal", .str (String.mk v))]
    else if pyIsDigitStr (pyStripNumChars v) then
      match pyFloat? (v.filter (fun c => c ≠ '%')) with
      | some q =>
          (fieldName, PyVal.num q) ::
            (if isLtf then [(fieldName ++ "_type", PyVal.str "LTF")]
             else if isHtf then [(fieldName ++ "_type", PyVal.str "HTF")]
             else [])
      | none => [(fieldName, .str (String.mk v))]
    else [(fieldName, .str (String.mk v))]
  else []

/-- The universal-pattern part of
`AdvancedLogParser._extract_all_indicator_fields`: run the pattern over the
line and perform each match's assignments in order.  (The method afterwards
also applies the `special_htf` (`bs`/`wa`/`pd`) and `progress` (`p...-...`)
patterns; on the indicator tokens studied here — letters from the prefix
sets followed by a timeframe suffix and a value — those patterns match
nothing, so they contribute no assignments.) -/
def extractAllIndicatorFieldsAdv (line : String) : PyDict :=
  (findAllUni matchValueAdv line.toList).foldl
    (fun d g => applyAssignments d (processTripleAdv g)) []

/-! ## `TrueDataDrivenAnalyzer.parse_line_all_fields` -/

/-- The body of the `for match in re.finditer(universal_pattern, line):` loop
of `TrueDataDrivenAnalyzer.parse_line_all_fields` for one match triple.
`.error ()` is a `ValueError` escaping from `float` (uncaught in this
function; `load_and_parse_data` catches it per line). -/
def processTripleTDA (g : List Char × List Char × List Char) :
    Except Unit (List (String × PyVal)) :=
  let fieldName := String.mk g.1 ++ String.mk g.2.1
  let v := g.2.2
  if v.contains '!' then
    .ok [(fieldName, .num v.length), (fieldName ++ "_signal", .str (String.mk v))]
  else if v.contains '%' then
    match pyFloat? (v.filter (fun c => c ≠ '%')) with
    | none => .error ()
    | some q =>
        .ok [(fieldName, .num (if v.take 2 = ['-', '-'] then -q else q))]
  else
    if v.take 2 = ['-', '-'] then
      match pyFloat? (v.drop 2) with
      | none => .error ()
      | some q => .ok [(fieldName, .num (-q))]
    else if v.take 1 = ['-'] then
      match pyFloat? (v.drop 1) with
      | none => .error ()
      | some q => .ok [(fieldName, .num (-q))]
    else
      match pyFloat? v with
      | none => .error ()
      | some q => .ok [(fieldName, .num q)]

/-- Fold the TDA loop body over the match triples, propagating a raised
`ValueError`. -/
def foldTriplesTDA : List (List Char × List Char × List Char) → PyDict →
    Except Unit PyDict
  | [], d => .ok d
  | g :: gs, d =>
      match processTripleTDA g with
      | .error e => .error e
      | .ok assigns => foldTriplesTDA gs (applyAssignments d assigns)

/-- The universal-pattern part of
`TrueDataDrivenAnalyzer.parse_line_all_fields`.  (The metadata regexes the
method runs first — OHLC `o:...`, volume `|...K|`, `rng:...`, color and
24h-change — require `:` or `|` characters and match nothing on the
indicator tokens studied here, so on such lines the returned dictionary is
exactly this fold.) -/
def parseLineAllFieldsTDA (line : String) : Except Unit PyDict :=
  foldTriplesTDA (findAllUni matchValueTDA line.toList) []

/-! ## `TrueDataDrivenAnalyzer.detect_extrema_events` -/

/-- One row of the analyzer's DataFrame: the price columns the event
detector reads. -/
structure Candle where
  low : Rat
  high : Rat
deriving DecidableEq, Repr

/-- `self.df.iloc[i]` (indices used by the detector are always in range). -/
def getCandle (rows : List Candle) (i : Nat) : Candle := rows.getD i ⟨0, 0⟩

/-- The inner `for j in range(i - window, i + window + 1)` check for a local
minimum at `i` (`window = 10`): fails as soon as some other row's low is
`<=` the current low. -/
def isLocalMinAt (rows : List Candle) (i : Nat) : Bool :=
  (List.range' (i - 10) 21).all
    (fun j => j = i || (getCandle rows i).low < (getCandle rows j).low)

/-- The corresponding local-maximum check. -/
def isLocalMaxAt (rows : List Candle) (i : Nat) : Bool :=
  (List.range' (i - 10) 21).all
    (fun j => j = i || (getCandle rows j).high < (getCandle rows i).high)

/-- Maximum of a list (`pandas.Series.max` of a nonempty series). -/
def listMax : List Rat → Rat
  | [] => 0
  | x :: xs => xs.foldl max x

/-- Minimum of a list (`pandas.Series.min` of a nonempty series). -/
def listMin : List Rat → Rat
  | [] => 0
  | x :: xs => xs.foldl min x

/-- An event record (`type`/`category`/`index`/`price` and the rebound or
decline percentage; the remaining keys of the Python dict are not modelled).
-/
structure PriceEvent where
  etype : String
  category : String
  index : Nat
  price : Rat
  changePct : Rat
deriving DecidableEq, Repr

/-- `TrueDataDrivenAnalyzer._analyze_low_event`: look at
`df.iloc[idx:idx+30]` (the event row and the 29 after it), compute the
rebound percentage from the event low to the maximal high of that window,
and classify. -/
def analyzeLowEvent (rows : List Candle) (idx : Nat) : Option PriceEvent :=
  let lowPrice := (getCandle rows idx).low
  let future := (rows.drop idx).take 30
  if future.length < 10 then none
  else
    let maxHighAfter := listMax (future.map (·.high))
    let reboundPct := (maxHighAfter - lowPrice) / lowPrice * 100
    let ty :=
      if reboundPct ≥ 3 then "low_with_rebound_3pct"
      else if reboundPct ≥ 2 then "low_with_rebound_2pct"
      else if reboundPct ≥ 1 then "low_with_rebound_1pct"
      else "low_no_rebound"
    some ⟨ty, "low_event", idx, lowPrice, reboundPct⟩

/-- `TrueDataDrivenAnalyzer._analyze_high_event`, symmetrically. -/
def analyzeHighEvent (rows : List Candle) (idx : Nat) : Option PriceEvent :=
  let highPrice := (getCandle rows idx).high
  let future := (rows.drop idx).take 30
  if future.length < 10 then none
  else
    let minLowAfter := listMin (future.map (·.low))
    let declinePct := (highPrice - minLowAfter) / highPrice * 100
    let ty :=
      if declinePct ≥ 3 then "high_with_decline_3pct"
      else if declinePct ≥ 2 then "high_with_decline_2pct"
      else if declinePct ≥ 1 then "high_with_decline_1pct"
      else "high_no_decline"
    some ⟨ty, "high_event", idx, highPrice, declinePct⟩

/-- `TrueDataDrivenAnalyzer.detect_extrema_events`: bail out below 50 rows,
then scan `i in range(window, len(df) - window - 30)` (that is,
`range(10, len(df) - 40)`, of size `len(df) - 50`) twice, collecting low
events at strict local minima and high events at strict local maxima. -/
def detectExtremaEvents (rows : List Candle) : List PriceEvent :=
  if rows.length < 50 then []
  else
    ((List.range' 10 (rows.length - 50)).filterMap
      (fun i => if isLocalMinAt rows i then analyzeLowEvent rows i else none)) ++
    ((List.range' 10 (rows.length - 50)).filterMap
      (fun i => if isLocalMaxAt rows i then analyzeHighEvent rows i else none))

/-! ## `ltf_htf_analyzer.py`: `_find_thresholds_for_type` -/

/-- Insert into a sorted list (ascending). -/
def insertSorted (x : Rat) : List Rat → List Rat
  | [] => [x]
  | y :: ys => if x ≤ y then x :: y :: ys else y :: insertSorted x ys

/-- Ascending sort (insertion sort; `np.percentile` only needs the sorted
order of the data). -/
def sortRats (xs : List Rat) : List Rat := xs.foldr insertSorted []

/-- `np.percentile(xs, p)` with the default linear interpolation: at
fractional rank `p (n-1) / 100` between the two neighbouring order
statistics.  (`np.percentile` raises on an empty array; callers below
always guard or catch that case, so the `0` returned here is never
relied on.) -/
def percentile (xs : List Rat) (p : Rat) : Rat :=
  let sorted := sortRats xs
  let n := sorted.length
  if n = 0 then 0
  else
    let pos : Rat := p * ((n : Rat) - 1) / 100
    let i : Nat := pos.floor.toNat
    let x₁ := sorted.getD i 0
    let x₂ := sorted.getD (i + 1) x₁
    x₁ + (pos - (i : Rat)) * (x₂ - x₁)

/-- The guard `feature_data.std() < 0.01` with the pandas sample standard
deviation (`ddof = 1`).  Comparing the variance against `0.01²` avoids the
square root; for fewer than two values the pandas `std` is `NaN` and the
`<` comparison is false. -/
def stdBelowCutoff (xs : List Rat) : Bool :=
  if 2 ≤ xs.length then
    let n : Rat := xs.length
    let mean := xs.sum / n
    let variance := ((xs.map (fun x => (x - mean) ^ 2)).sum) / (n - 1)
    decide (variance < 1 / 10000)
  else false

/-- `(abs(feature_data) > threshold).astype(int)` as a boolean vector. -/
def binarize (xs : List Rat) (t : Rat) : List Bool :=
  xs.map (fun x => decide (|x| > t))

/-- `sklearn.metrics.roc_auc_score(events, scores)` for a binary 0/1 score
vector: the ties-averaged Mann–Whitney statistic over positive/negative
pairs.  `none` models the `ValueError` raised when `events` contains a
single class. -/
def aucScore (events scores : List Bool) : Option Rat :=
  let pairs := events.zip scores
  let pos := (pairs.filter (fun p => p.1)).map (·.2)
  let neg := (pairs.filter (fun p => ¬ p.1)).map (·.2)
  if pos.isEmpty ∨ neg.isEmpty then none
  else
    let num : Rat :=
      (pos.map (fun sp =>
        (neg.map (fun sn =>
          if sp && !sn then (1 : Rat) else if sp = sn then 1 / 2 else 0)).sum)).sum
    some (num / ((pos.length : Rat) * (neg.length : Rat)))

/-- `np.percentile(feature_data, np.arange(10, 100, 10))`: the candidate
thresholds at the 10th–90th percentiles. -/
def candidateThresholds (xs : List Rat) : List Rat :=
  (List.range' 10 9 10).map (fun p => percentile xs (p : Rat))

/-- The `for threshold in thresholds:` loop of `_find_thresholds_for_type`
for one field: state is `(best_threshold, best_score)`, updated when the
binarized feature activates on more than 10 rows, `roc_auc_score` does not
raise, and the score strictly beats the best so far. -/
def thresholdLoop (xs : List Rat) (events : List Bool) :
    List Rat → Option Rat × Rat → Option Rat × Rat
  | [], st => st
  | t :: ts, st =>
      let b := binarize xs t
      if b.count true > 10 then
        match aucScore events b with
        | some s =>
            if s > st.2 then thresholdLoop xs events ts (some t, s)
            else thresholdLoop xs events ts st
        | none => thresholdLoop xs events ts st
      else thresholdLoop xs events ts st

/-- `_find_thresholds_for_type` for a single feature column `xs` against the
event labels: skip flat fields, run the candidate loop, and record
`(best_threshold, best_roc_auc)` only when a threshold was found with score
strictly above `0.55`.  (The surrounding method builds a dictionary with one
such entry per feature and also stores the activation rate; the per-feature
`except Exception: continue` only fires for empty columns, for which this
function returns `none` as well.) -/
def findThresholdsForField (xs : List Rat) (events : List Bool) :
    Option (Rat × Rat) :=
  if stdBelowCutoff xs then none
  else
    let st := thresholdLoop xs events (candidateThresholds xs) (none, 0)
    match st.1 with
    | some t => if st.2 > 11 / 20 then some (t, st.2) else none
    | none => none

/-! ## `veto_system.py` -/

/-- `VetoSystem._calculate_accuracy`: share of positions where prediction
equals actual (0 for empty input). -/
def pyAccuracy (predictions actual : List Bool) : Rat :=
  if predictions.length = 0 ∨ actual.length = 0 then 0
  else (((predictions.zip actual).filter (fun p => p.1 = p.2)).length : Rat) /
    (actual.length : Rat)

/-- Boolean-mask indexing `series[mask]` on an aligned pandas series. -/
def maskFilter {α : Type} (xs : List α) (mask : List Bool) : List α :=
  ((xs.zip mask).filter (·.2)).map (·.1)

/-- The dictionary returned by `VetoSystem._calculate_blocking_effect`:
either one of the degenerate `{'blocking_strength': 0,
'false_positive_rate': 0}` returns, or the full analysis. -/
inductive BlockingResult where
  | degenerate
  | full (strength fpr accWithout accWith : Rat) (activations : Nat)
deriving DecidableEq, Repr

/-- `blocking_analysis['blocking_strength']`. -/
def BlockingResult.strength : BlockingResult → Rat
  | .degenerate => 0
  | .full s _ _ _ _ => s

/-- `VetoSystem._calculate_blocking_effect`: compare the accuracy of the
baseline signal against the events on the rows where the candidate field is
inactive versus the rows where it is active.  `otherFieldCount` is
`len(other_fields)`; the random 10-field baseline built from them enters
only through `baseline`. -/
def calculateBlockingEffect (baseline events : List Bool) (activeMask : List Bool)
    (otherFieldCount : Nat) : BlockingResult :=
  if otherFieldCount < 5 then .degenerate
  else
    let inactiveMask := activeMask.map (fun b => !b)
    if activeMask.count true > 10 ∧ inactiveMask.count true > 10 then
      let accWithout :=
        pyAccuracy (maskFilter baseline inactiveMask) (maskFilter events inactiveMask)
      let accWith :=
        pyAccuracy (maskFilter baseline activeMask) (maskFilter events activeMask)
      let blockingStrength := max 0 (accWithout - accWith)
      let falsePositives :=
        ((maskFilter baseline activeMask).zip (maskFilter events activeMask)).filter
          (fun p => p.1 ∧ ¬ p.2)
      let fpr := (falsePositives.length : Rat) / (max 1 (activeMask.count true) : Rat)
      .full blockingStrength fpr accWithout accWith (activeMask.count true)
    else .degenerate

/-- The `for threshold in thresholds:` loop of
`VetoSystem._analyze_field_as_blocker`: keep the analysis with the largest
blocking strength strictly above the best so far (initially 0). -/
def blockerLoop (fieldData : List Rat) (baseline events : List Bool)
    (otherFieldCount : Nat) :
    List Rat → Option (BlockingResult × Rat) → Rat → Option (BlockingResult × Rat)
  | [], best, _ => best
  | t :: ts, best, bestStrength =>
      let active := fieldData.map (fun x => decide (|x| > t))
      if active.count true < 10 then
        blockerLoop fieldData baseline events otherFieldCount ts best bestStrength
      else
        let ba := calculateBlockingEffect baseline events active otherFieldCount
        if ba.strength > bestStrength then
          blockerLoop fieldData baseline events otherFieldCount ts (some (ba, t)) ba.strength
        else
          blockerLoop fieldData baseline events otherFieldCount ts best bestStrength

/-- `VetoSystem._analyze_field_as_blocker` for one field: skip flat fields,
take the 70/80/90/95th percentiles of `|field|` as candidate activation
thresholds, and return the best analysis (with its threshold) or `None`. -/
def analyzeFieldAsBlocker (fieldData : List Rat) (baseline events : List Bool)
    (otherFieldCount : Nat) : Option (BlockingResult × Rat) :=
  if stdBelowCutoff fieldData then none
  else
    let cands := [70, 80, 90, 95].map (fun p => percentile (fieldData.map (|·|)) p)
    blockerLoop fieldData baseline events otherFieldCount cands none 0

/-- `VetoSystem._find_blocking_fields` keeps a field as a blocking field
only when `_analyze_field_as_blocker` returned an analysis with
`blocking_strength > 0.1` (the subsequent sort-and-take-top-20 only shrinks
that set). -/
def isSelectedBlocker (fieldData : List Rat) (baseline events : List Bool)
    (otherFieldCount : Nat) : Bool :=
  match analyzeFieldAsBlocker fieldData baseline events otherFieldCount with
  | some (ba, _) => decide (ba.strength > 1 / 10)
  | none => false

/-- One entry of `self.veto_rules['blocking_fields']`, restricted to what
`_apply_veto_rules` reads: the field's column and the rule's threshold. -/
structure VetoRule where
  values : List Rat
  threshold : Rat
deriving DecidableEq, Repr

/-- `filtered_signals[blocking_mask] = 0` for one blocking rule. -/
def applyBlockingRule (signals : List Bool) (r : VetoRule) : List Bool :=
  signals.zipWith (fun s x => if |x| > r.threshold then false else s) r.values

/-- One false-signal filter of `_apply_veto_rules`:
`filtered_signals & ~(|field| > field.quantile(0.8))`. -/
def applyFalseFilter (signals : List Bool) (values : List Rat) : List Bool :=
  let q := percentile values 80
  signals.zipWith (fun s x => s && ¬ (|x| > q)) values

/-- `VetoSystem._apply_veto_rules`: zero the baseline signals wherever a
blocking field exceeds its rule threshold, then apply the false-signal
filters. -/
def applyVetoRules (signals : List Bool) (rules : List VetoRule)
    (falseFilters : List (List Rat)) : List Bool :=
  falseFilters.foldl applyFalseFilter (rules.foldl applyBlockingRule signals)

/-- A bang-dash run: the shape captured by the first value alternative
`[!-]+` of the `AdvancedLogParser` pattern. -/
def advBangValue (v : List Char) : Prop :=
  v ≠ [] ∧ ∀ c ∈ v, isBangDash c = true

/-- An unsigned decimal with optional fraction and percent: the shape
captured by the second value alternative `\-?\d+(?:\.\d+)?(?:%)?` (the
optional sign is never captured, since a leading `-` always goes to the
first alternative). -/
def advNumValue (v : List Char) : Prop :=
  ∃ (ds fs : List Char) (pct : Bool), v = ds ++ (if fs.isEmpty then [] else '.' :: fs) ++
      (if pct then ['%'] else []) ∧
    ds ≠ [] ∧ (∀ c ∈ ds, isDigitChar c = true) ∧ (∀ c ∈ fs, isDigitChar c = true)

/-- A sample price series used to exercise the event detector on concrete
input: 51 rows, flat except for a single strict low at index 10 that fully
rebounds. -/
def sampleRows : List Candle :=
  List.replicate 10 ⟨2, 2⟩ ++ [⟨1, 2⟩] ++ List.replicate 40 ⟨2, 2⟩

/-- The event the detector finds in `sampleRows`. -/
def sampleLowEvent : PriceEvent :=
  ⟨"low_with_rebound_3pct", "low_event", 10, 1, 100⟩

/-- A feature column for exercising `findThresholdsForField`: fifteen flat
rows followed by fifteen rows at 10. -/
def sampleFieldData : List Rat :=
  List.replicate 15 0 ++ List.replicate 15 10

/-- Event labels aligned with `sampleFieldData`: the events occur exactly on
the active rows. -/
def sampleFieldEvents : List Bool :=
  List.replicate 15 false ++ List.replicate 15 true

/-- A candidate blocking field for the VETO system: the ramp 0, 1, …, 39. -/
def sampleVetoField : List Rat :=
  (List.range 40).map (fun n => (n : Rat))

/-- A baseline signal that fires exactly where `sampleVetoField` exceeds its
70th-percentile activation threshold. -/
def sampleVetoBaseline : List Bool :=
  List.replicate 28 false ++ List.replicate 12 true

/-- Event labels for the VETO example: no events at all, so the baseline is
perfectly accurate exactly where the field is inactive. -/
def sampleVetoEvents : List Bool :=
  List.replicate 40 false

/-! ## Theorems -/

theorem parseLogFileLoop_eq_filterMap {ρ : Type}
    (p : String → Nat → Except String (Option ρ)) :
    ∀ (ls : List String) (i : Nat),
      parseLogFileLoop p ls i =
        (ls.enumFrom i).filterMap
          (fun il =>
            match p (String.mk (pyStrip il.2.toList)) il.1 with
            | .ok (some r) => some r
            | _ => none)
  | [], _ => rfl
  | l :: ls, i => by
      simp only [parseLogFileLoop, List.enumFrom, List.filterMap_cons]
      cases h : p (String.mk (pyStrip l.toList)) i with
      | error e => simp [h, parseLogFileLoop_eq_filterMap p ls (i + 1)]
      | ok o =>
          cases o with
          | none => simp [h, parseLogFileLoop_eq_filterMap p ls (i + 1)]
          | some r => simp [h, parseLogFileLoop_eq_filterMap p ls (i + 1)]

/-- **C7.** `AdvancedLogParser.parse_log_file` never propagates a per-line
exception: the result is exactly the records of the (stripped) lines whose
parse succeeds with a record — lines whose parse raises (`.error`) or yields
no record are skipped while every other line is still processed — and when
no line yields a record the result is the empty DataFrame `[]`. -/
theorem parse_log_file_skips_failing_lines {ρ : Type}
    (p : String → Nat → Except String (Option ρ)) (lines : List String) :
    parseLogFile p lines =
      lines.enum.filterMap
        (fun il =>
          match p (String.mk (pyStrip il.2.toList)) il.1 with
          | .ok (some r) => some r
          | _ => none) ∧
    ((∀ il ∈ lines.enum, ∀ r : ρ, p (String.mk (pyStrip il.2.toList)) il.1 ≠ .ok (some r)) →
      parseLogFile p lines = []) := by
  constructor
  · exact parseLogFileLoop_eq_filterMap p lines 0
  · intro h
    show parseLogFileLoop p lines 0 = []
    rw [parseLogFileLoop_eq_filterMap p lines 0]
    rw [List.filterMap_eq_nil]
    intro il hil
    cases hp : p (String.mk (pyStrip il.2.toList)) il.1 with
    | error e => rfl
    | ok o =>
        cases o with
        | none => rfl
        | some r => exact absurd hp (h il hil r)

/-- Witness for C7 on concrete input: the parser raises on line 1 and
yields no record on line 2, and exactly the other two lines' records
survive. -/
theorem parse_log_file_skips_failing_lines_witness :
    parseLogFile sampleLineParse ["ok", "bad", "", "xyz"] = [(0, 2), (3, 3)] := by
  have h := (parse_log_file_skips_failing_lines sampleLineParse ["ok", "bad", "", "xyz"]).1
  rw [h]
  rfl

/-- **C9.** `ScoringAPI.parse_log_line` never raises: a non-string input, a
blank input, a line without `'|'`, and a line with fewer than six
`'|'`-separated parts all yield the empty dict, and when the body raises
(as it always does at the `re.search` call on lines passing the guards,
`re` being an unbound local) the exception is caught and the data
accumulated up to that point is returned. -/
theorem parse_log_line_never_raises :
    parseLogLine none = [] ∧
    (∀ l : String, pyStrip l.data = [] → parseLogLine (some l) = []) ∧
    (∀ l : String, ¬ l.data.contains '|' → parseLogLine (some l) = []) ∧
    (∀ l : String, (splitOnChar '|' l.data).length < 6 → parseLogLine (some l) = []) ∧
    (∀ (l : String) (d : PyDict), pyStrip l.data ≠ [] → parseLogLineBody l = .error d →
      parseLogLine (some l) = d) := by
  refine ⟨rfl, ?_, ?_, ?_, ?_⟩
  · intro l hl
    simp [parseLogLine, hl]
  · intro l hl
    have hmem : ¬ '|' ∈ l.data := by simpa using hl
    have hbody : parseLogLineBody l = .ok [] := by
      simp only [parseLogLineBody]
      simp [hmem]
    by_cases ht : pyStrip l.data = []
    · simp [parseLogLine, ht]
    · simp [parseLogLine, ht, hbody]
  · intro l hl
    have hbody : parseLogLineBody l = .ok [] := by
      simp only [parseLogLineBody]
      by_cases hmem : '|' ∈ l.data
      · simp [hmem, hl]
      · simp [hmem]
    by_cases ht : pyStrip l.data = []
    · simp [parseLogLine, ht]
    · simp [parseLogLine, ht, hbody]
  · intro l d ht hbody
    simp [parseLogLine, ht, hbody]

/-- Witness for C9 on a concrete seven-part line: the body raises after
accumulating color, price change and volume, and exactly that data is
returned. -/
theorem parse_log_line_never_raises_witness :
    parseLogLine (some "a|b|c|d|e|-1.5%|22K") =
      [("color", PyVal.str "e"), ("price_change", PyVal.num (-3 / 2)),
       ("volume", PyVal.num 22000)] := by
  refine parse_log_line_never_raises.2.2.2.2 "a|b|c|d|e|-1.5%|22K" _ (by decide) ?_
  with_unfolding_all rfl

theorem scoreLoop_ok_props (weights : List (String × Rat)) (data : PyDict) :
    ∀ (ts : List (String × Rat)) (st st' : ScoreState),
      (∀ ft ∈ ts, 0 ≤ ft.2) →
      scoreLoop weights data ts st = .ok st' →
      (0 ≤ st.1 → 0 ≤ st'.1) ∧
      ((∀ c ∈ st.2.2, c.2.contribution ≤ 3 * c.2.weight) →
        ∀ c ∈ st'.2.2, c.2.contribution ≤ 3 * c.2.weight)
  | [], st, st', _, h => by
      cases h
      exact ⟨fun h => h, fun h => h⟩
  | ft :: ts, st, st', hts, h => by
      have hft : 0 ≤ ft.2 := hts ft (List.mem_cons_self ft ts)
      have hts' : ∀ f ∈ ts, 0 ≤ f.2 := fun f hf => hts f (List.mem_cons_of_mem ft hf)
      rw [scoreLoop] at h
      revert h
      cases hstep : scoreStep weights data st ft with
      | error e => intro h; cases h
      | ok st₁ =>
          intro h
          have ih := scoreLoop_ok_props weights data ts st₁ st' hts' h
          -- analyse the step
          unfold scoreStep at hstep
          revert hstep
          cases hlook : List.lookup ft.1 data with
          | none => intro hstep; cases hstep; exact ih
          | some pv =>
              cases pv with
              | str s => intro hstep; cases hstep; exact ih
              | num v =>
                  intro hstep
                  by_cases hv : |v| > ft.2
                  · simp only [hv, if_pos] at hstep
                    by_cases hw : (List.lookup (ft.1 ++ "_activated") weights).getD 0 > 0
                    · simp only [hw, if_pos] at hstep
                      by_cases hz : ft.2 = 0
                      · simp [hz] at hstep
                      · simp only [hz, if_neg, if_false] at hstep
                        cases hstep
                        have hpos : (0 : Rat) < ft.2 := lt_of_le_of_ne hft (Ne.symm hz)
                        set w := (List.lookup (ft.1 ++ "_activated") weights).getD 0 with hwdef
                        have hcnn : 0 ≤ w * min (|v| / ft.2) 3 := by
                          apply mul_nonneg (le_of_lt hw)
                          exact le_min (div_nonneg (abs_nonneg v) (le_of_lt hpos)) (by norm_num)
                        have hcb : w * min (|v| / ft.2) 3 ≤ 3 * w := by
                          have h1 : min (|v| / ft.2) 3 ≤ 3 := min_le_right _ _
                          calc w * min (|v| / ft.2) 3 ≤ w * 3 :=
                                mul_le_mul_of_nonneg_left h1 (le_of_lt hw)
                            _ = 3 * w := by ring
                        refine ⟨fun hst => ih.1 (by positivity), fun hcs => ih.2 ?_⟩
                        intro c hc
                        rcases List.mem_append.mp hc with hc | hc
                        · exact hcs c hc
                        · rcases List.mem_singleton.mp hc with rfl
                          exact hcb
                    · simp only [hw, if_neg, if_false] at hstep
                      cases hstep; exact ih
                  · simp only [hv, if_neg, if_false] at hstep
                    cases hstep; exact ih

theorem scoreLoop_no_activation (weights : List (String × Rat)) (data : PyDict) :
    ∀ (ts : List (String × Rat)) (st : ScoreState),
      (∀ ft ∈ ts, ∀ v : Rat, List.lookup ft.1 data = some (.num v) → |v| > ft.2 →
        ¬ 0 < (List.lookup (ft.1 ++ "_activated") weights).getD 0) →
      scoreLoop weights data ts st = .ok st
  | [], st, _ => rfl
  | ft :: ts, st, h => by
      have hft := h ft (List.mem_cons_self ft ts)
      have hts : ∀ f ∈ ts, ∀ v : Rat, List.lookup f.1 data = some (.num v) → |v| > f.2 →
          ¬ 0 < (List.lookup (f.1 ++ "_activated") weights).getD 0 :=
        fun f hf => h f (List.mem_cons_of_mem ft hf)
      have hstep : scoreStep weights data st ft = .ok st := by
        unfold scoreStep
        cases hlook : List.lookup ft.1 data with
        | none => rfl
        | some pv =>
            cases pv with
            | str s => rfl
            | num v =>
                by_cases hv : |v| > ft.2
                · have hw := hft v hlook hv
                  simp [hv, hw]
                · simp [hv]
      rw [scoreLoop, hstep]
      exact scoreLoop_no_activation weights data ts st hts

/-- **C8.** With the configuration loaded (`is_ready`) and nonnegative
configured thresholds, `ScoringAPI.calculate_score` returns a score and a
confidence in `[0, 1]`; every recorded feature contribution is at most
three times the feature's weight; and when no field activates with a
positive weight, score and confidence are exactly `0`. -/
theorem calculate_score_bounds (thresholds weights : List (String × Rat))
    (data : PyDict) (hts : ∀ ft ∈ thresholds, 0 ≤ ft.2) :
    (0 ≤ (calculateScore true thresholds weights data).score ∧
      (calculateScore true thresholds weights data).score ≤ 1) ∧
    (0 ≤ (calculateScore true thresholds weights data).confidence ∧
      (calculateScore true thresholds weights data).confidence ≤ 1) ∧
    (∀ c ∈ (calculateScore true thresholds weights data).contributions,
      c.2.contribution ≤ 3 * c.2.weight) ∧
    ((∀ ft ∈ thresholds, ∀ v : Rat, List.lookup ft.1 data = some (.num v) → |v| > ft.2 →
        ¬ 0 < (List.lookup (ft.1 ++ "_activated") weights).getD 0) →
      (calculateScore true thresholds weights data).score = 0 ∧
        (calculateScore true thresholds weights data).confidence = 0) := by
  have hcseq : calculateScore true thresholds weights data =
      (match scoreLoop weights data thresholds (0, 0, []) with
        | .error _ => (⟨0, 0, 0, [], true⟩ : ScoreResult)
        | .ok (score, active, contribs) =>
            if active > 0 then
              ⟨min (score / (active : Rat)) 1, min ((active : Rat) / 5) 1, active,
                contribs, false⟩
            else ⟨0, 0, active, contribs, false⟩) := by
    simp [calculateScore]
  rw [hcseq]
  cases hloop : scoreLoop weights data thresholds (0, 0, []) with
  | error e =>
      refine ⟨⟨le_refl 0, by norm_num⟩, ⟨le_refl 0, by norm_num⟩, ?_, fun _ => ⟨rfl, rfl⟩⟩
      intro c hc
      simp at hc
  | ok st =>
      obtain ⟨score, active, contribs⟩ := st
      have hprops := scoreLoop_ok_props weights data thresholds (0, 0, [])
        (score, active, contribs) hts hloop
      have hscore : 0 ≤ score := hprops.1 (le_refl 0)
      have hcontribs : ∀ c ∈ contribs, c.2.contribution ≤ 3 * c.2.weight :=
        hprops.2 (by intro c hc; simp at hc)
      dsimp only
      by_cases ha : active > 0
      · have hapos : (0 : Rat) < (active : Rat) := by exact_mod_cast ha
        simp only [ha, if_pos]
        refine ⟨⟨?_, min_le_right _ _⟩, ⟨?_, min_le_right _ _⟩, hcontribs, ?_⟩
        · exact le_min (div_nonneg hscore (le_of_lt hapos)) (by norm_num)
        · exact le_min (div_nonneg (by positivity) (by norm_num)) (by norm_num)
        · intro hnoact
          have hno := scoreLoop_no_activation weights data thresholds (0, 0, []) hnoact
          rw [hloop] at hno
          cases hno
          exact absurd ha (by simp)
      · rw [if_neg ha]
        exact ⟨⟨le_refl 0, by norm_num⟩, ⟨le_refl 0, by norm_num⟩, hcontribs,
          fun _ => ⟨rfl, rfl⟩⟩

/-- Witness for C8 on a one-field configuration with an activating input. -/
theorem calculate_score_bounds_witness :
    (∀ ft ∈ [(("ef2" : String), (2 : Rat))], 0 ≤ ft.2) ∧
    ((0 ≤ (calculateScore true [("ef2", 2)] [("ef2_activated", 1 / 2)]
        [("ef2", PyVal.num 5)]).score ∧
      (calculateScore true [("ef2", 2)] [("ef2_activated", 1 / 2)]
        [("ef2", PyVal.num 5)]).score ≤ 1) ∧
    (0 ≤ (calculateScore true [("ef2", 2)] [("ef2_activated", 1 / 2)]
        [("ef2", PyVal.num 5)]).confidence ∧
      (calculateScore true [("ef2", 2)] [("ef2_activated", 1 / 2)]
        [("ef2", PyVal.num 5)]).confidence ≤ 1) ∧
    (∀ c ∈ (calculateScore true [("ef2", 2)] [("ef2_activated", 1 / 2)]
        [("ef2", PyVal.num 5)]).contributions,
      c.2.contribution ≤ 3 * c.2.weight) ∧
    ((∀ ft ∈ [(("ef2" : String), (2 : Rat))], ∀ v : Rat,
        List.lookup ft.1 [("ef2", PyVal.num 5)] = some (.num v) → |v| > ft.2 →
        ¬ 0 < (List.lookup (ft.1 ++ "_activated") [("ef2_activated", (1 : Rat) / 2)]).getD 0) →
      (calculateScore true [("ef2", 2)] [("ef2_activated", 1 / 2)]
        [("ef2", PyVal.num 5)]).score = 0 ∧
      (calculateScore true [("ef2", 2)] [("ef2_activated", 1 / 2)]
        [("ef2", PyVal.num 5)]).confidence = 0)) :=
  ⟨by decide, calculate_score_bounds _ _ _ (by decide)⟩

/-- **C10.** `RealTimeScoringAPI.process_realtime_line` preserves the
history-size invariant: from any state with at most `max_history = 1000`
stored scores, the state after a call again has at most 1000. -/
theorem process_realtime_line_history_bound {α : Type} (recentScores : List α)
    (result : α) (h : recentScores.length ≤ 1000) :
    (processRealtimeLine recentScores result).length ≤ 1000 := by
  show (if (recentScores ++ [result]).length > maxHistory then
      (recentScores ++ [result]).drop ((recentScores ++ [result]).length - maxHistory)
    else recentScores ++ [result]).length ≤ 1000
  unfold maxHistory
  split
  · simp only [List.length_drop]
    omega
  · rename_i hlen
    simp only [not_lt, List.length_append, List.length_cons, List.length_nil] at hlen ⊢
    omega

/-- Witness for C10 at a concrete state. -/
theorem process_realtime_line_history_bound_witness :
    ([(0 : Nat)].length ≤ 1000) ∧ (processRealtimeLine [(0 : Nat)] 1).length ≤ 1000 :=
  ⟨by decide, process_realtime_line_history_bound [0] 1 (by decide)⟩

theorem digit_char_facts {c : Char} (h : isDigitChar c = true) :
    isAlphaChar c = false ∧ isBangDash c = false ∧ c ≠ '.' ∧ c ≠ '%' ∧ c ≠ '!' ∧
      c ≠ '-' ∧ c ≠ '+' := by
  simp only [isDigitChar, Bool.and_eq_true, decide_eq_true_eq] at h
  obtain ⟨h0, h9⟩ := h
  have hne : ∀ d : Char, d < '0' → c ≠ d := by
    intro d hd he
    subst he
    exact absurd h0 (not_le.mpr hd)
  refine ⟨?_, ?_, hne '.' (by decide), hne '%' (by decide), hne '!' (by decide),
    hne '-' (by decide), hne '+' (by decide)⟩
  · simp only [isAlphaChar, Bool.or_eq_false_iff, Bool.and_eq_false_iff,
      decide_eq_false_iff_not, not_le]
    constructor
    · exact Or.inl (lt_of_le_of_lt h9 (by decide))
    · exact Or.inl (lt_of_le_of_lt h9 (by decide))
  · have h1 : c ≠ '!' := hne '!' (by decide)
    have h2 : c ≠ '-' := hne '-' (by decide)
    simp [isBangDash, h1, h2]

theorem takeWhile_append_all {p : Char → Bool} :
    ∀ (l₁ l₂ : List Char), (∀ c ∈ l₁, p c = true) →
      (l₁ ++ l₂).takeWhile p = l₁ ++ l₂.takeWhile p
  | [], l₂, _ => rfl
  | c :: t, l₂, h => by
      have hc : p c = true := h c (List.mem_cons_self c t)
      simp only [List.cons_append, List.takeWhile_cons, hc, if_true]
      rw [takeWhile_append_all t l₂ (fun d hd => h d (List.mem_cons_of_mem c hd))]

theorem dropWhile_append_all {p : Char → Bool} :
    ∀ (l₁ l₂ : List Char), (∀ c ∈ l₁, p c = true) →
      (l₁ ++ l₂).dropWhile p = l₂.dropWhile p
  | [], l₂, _ => rfl
  | c :: t, l₂, h => by
      have hc : p c = true := h c (List.mem_cons_self c t)
      simp only [List.cons_append, List.dropWhile_cons, hc, if_true]
      exact dropWhile_append_all t l₂ (fun d hd => h d (List.mem_cons_of_mem c hd))

theorem takeWhile_nil_of_head {p : Char → Bool} {c : Char} (t : List Char)
    (h : p c = false) : (c :: t).takeWhile p = [] := by
  simp [List.takeWhile_cons, h]

theorem dropWhile_full_of_head {p : Char → Bool} {c : Char} (t : List Char)
    (h : p c = false) : (c :: t).dropWhile p = c :: t := by
  simp [List.dropWhile_cons, h]

theorem takeWhile_append_exact {p : Char → Bool} {l₁ l₂ : List Char}
    (h₁ : ∀ c ∈ l₁, p c = true) (h₂ : l₂.takeWhile p = []) :
    (l₁ ++ l₂).takeWhile p = l₁ := by
  rw [takeWhile_append_all l₁ l₂ h₁, h₂, List.append_nil]

theorem dropWhile_append_exact {p : Char → Bool} {l₁ l₂ : List Char}
    (h₁ : ∀ c ∈ l₁, p c = true) (h₂ : l₂.dropWhile p = l₂) :
    (l₁ ++ l₂).dropWhile p = l₂ := by
  rw [dropWhile_append_all l₁ l₂ h₁, h₂]

theorem takeWhile_eq_self_of_all {p : Char → Bool} :
    ∀ {l : List Char}, (∀ c ∈ l, p c = true) → l.takeWhile p = l
  | [], _ => rfl
  | c :: t, h => by
      simp only [List.takeWhile_cons, h c (List.mem_cons_self c t), if_true]
      rw [takeWhile_eq_self_of_all (fun d hd => h d (List.mem_cons_of_mem c hd))]

theorem dropWhile_eq_nil_of_all {p : Char → Bool} :
    ∀ {l : List Char}, (∀ c ∈ l, p c = true) → l.dropWhile p = []
  | [], _ => rfl
  | c :: t, h => by
      simp only [List.dropWhile_cons, h c (List.mem_cons_self c t), if_true]
      exact dropWhile_eq_nil_of_all (fun d hd => h d (List.mem_cons_of_mem c hd))

theorem string_append_ne (s t : String) (h : t ≠ "") : s ++ t ≠ s := by
  intro he
  apply h
  obtain ⟨d⟩ := t
  obtain ⟨sd⟩ := s
  have hdata : sd ++ d = sd := congrArg String.data he
  have hlen := congrArg List.length hdata
  simp only [List.length_append] at hlen
  have hd : d = [] := List.length_eq_zero.mp (by omega)
  subst hd
  rfl

theorem findAllUniFuel_no_alpha (f : List Char → Option (List Char × List Char)) :
    ∀ (fuel : Nat) (cs : List Char), (∀ c ∈ cs, isAlphaChar c = false) →
      findAllUniFuel f fuel cs = []
  | 0, _, _ => rfl
  | fuel + 1, [], _ => by
      simp [findAllUniFuel, tryMatchUni]
  | fuel + 1, c :: t, h => by
      have hc : isAlphaChar c = false := h c (List.mem_cons_self c t)
      have hpre : tryMatchUni f (c :: t) = none := by
        unfold tryMatchUni
        rw [takeWhile_nil_of_head t hc]
        rfl
      rw [findAllUniFuel, hpre]
      exact findAllUniFuel_no_alpha f fuel t (fun d hd => h d (List.mem_cons_of_mem c hd))

theorem findAllUni_single (f : List Char → Option (List Char × List Char))
    (cs : List Char) (m : UniMatch) (hm : tryMatchUni f cs = some m)
    (hrest : ∀ c ∈ m.rest, isAlphaChar c = false) :
    findAllUni f cs = [(m.pre, m.suf, m.val)] := by
  cases cs with
  | nil =>
      exfalso
      unfold tryMatchUni at hm
      simp at hm
  | cons c t =>
      show findAllUniFuel f (c :: t).length (c :: t) = _
      rw [List.length_cons, findAllUniFuel, hm]
      dsimp only
      rw [findAllUniFuel_no_alpha f t.length m.rest hrest]

theorem tryMatchUni_append (f : List Char → Option (List Char × List Char))
    (pdata tail : List Char) (hne : pdata ≠ [])
    (hpa : ∀ c ∈ pdata, isAlphaChar c = true)
    (htail : tail.takeWhile isAlphaChar = [])
    (s v r : List Char) (hsv : matchSuffixValue f tail = some (s, v, r)) :
    tryMatchUni f (pdata ++ tail) = some ⟨pdata, s, v, r⟩ := by
  unfold tryMatchUni
  have hpre : (pdata ++ tail).takeWhile isAlphaChar = pdata :=
    takeWhile_append_exact hpa htail
  rw [hpre]
  have hpe : pdata.isEmpty = false := by
    cases pdata with
    | nil => exact absurd rfl hne
    | cons a b => rfl
  simp only [hpe, Bool.false_eq_true, if_false, if_neg]
  rw [List.drop_left, hsv]
  rfl

theorem matchSuffixValue_digits (f : List Char → Option (List Char × List Char))
    (sd : List Char) (hne : sd ≠ []) (hd : ∀ c ∈ sd, isDigitChar c = true)
    (rest v r : List Char) (hv : f rest = some (v, r)) :
    matchSuffixValue f (sd ++ '-' :: rest) = some (sd, v, r) := by
  unfold matchSuffixValue takeDigits
  have h1 : (sd ++ '-' :: rest).takeWhile isDigitChar = sd :=
    takeWhile_append_exact hd (takeWhile_nil_of_head rest (by decide))
  have h2 : (sd ++ '-' :: rest).dropWhile isDigitChar = '-' :: rest :=
    dropWhile_append_exact hd (dropWhile_full_of_head rest (by decide))
  rw [h1, h2]
  have hpe : sd.isEmpty = false := by
    cases sd with
    | nil => exact absurd rfl hne
    | cons a b => rfl
  simp only [hpe, Bool.false_eq_true, if_false, if_neg, hv]
  rfl

theorem matchSuffixValue_htf (f : List Char → Option (List Char × List Char))
    (sfx : String) (hs : sfx ∈ htfSuffixSet)
    (rest v r : List Char) (hv : f rest = some (v, r)) :
    matchSuffixValue f (sfx.data ++ '-' :: rest) = some (sfx.data, v, r) := by
  fin_cases hs
  · show matchSuffixValue f (['1', 'h'] ++ '-' :: rest) = some (['1', 'h'], v, r)
    simp [matchSuffixValue, takeDigits, trySuffixLit, hv, isDigitChar,
      List.takeWhile_cons, List.dropWhile_cons]
  · show matchSuffixValue f (['4', 'h'] ++ '-' :: rest) = some (['4', 'h'], v, r)
    simp [matchSuffixValue, takeDigits, trySuffixLit, hv, isDigitChar,
      List.takeWhile_cons, List.dropWhile_cons]
  · show matchSuffixValue f (['1', 'd'] ++ '-' :: rest) = some (['1', 'd'], v, r)
    simp [matchSuffixValue, takeDigits, trySuffixLit, hv, isDigitChar,
      List.takeWhile_cons, List.dropWhile_cons]
  · show matchSuffixValue f (['1', 'w'] ++ '-' :: rest) = some (['1', 'w'], v, r)
    simp [matchSuffixValue, takeDigits, trySuffixLit, hv, isDigitChar,
      List.takeWhile_cons, List.dropWhile_cons]

theorem matchUnsignedNum_shape (a fs : List Char) (pct : Bool) (ha : a ≠ [])
    (had : ∀ c ∈ a, isDigitChar c = true) (hfd : ∀ c ∈ fs, isDigitChar c = true) :
    matchUnsignedNum (a ++ (if fs.isEmpty then [] else '.' :: fs) ++
        (if pct then ['%'] else [])) =
      some (a ++ (if fs.isEmpty then [] else '.' :: fs) ++
        (if pct then ['%'] else []), []) := by
  have hae : a.isEmpty = false := by
    cases a with
    | nil => exact absurd rfl ha
    | cons x y => rfl
  cases fs with
  | nil =>
      cases pct with
      | false =>
          show matchUnsignedNum (a ++ [] ++ []) = some (a ++ [] ++ [], [])
          rw [List.append_nil, List.append_nil]
          unfold matchUnsignedNum takeDigits
          rw [takeWhile_eq_self_of_all had, dropWhile_eq_nil_of_all had]
          simp [hae]
      | true =>
          show matchUnsignedNum (a ++ [] ++ ['%']) = some (a ++ [] ++ ['%'], [])
          rw [List.append_nil]
          unfold matchUnsignedNum takeDigits
          rw [takeWhile_append_exact had (by decide),
            dropWhile_append_exact had (by decide)]
          simp [hae]
  | cons f0 ft =>
      have hf0 : isDigitChar f0 = true := hfd f0 (List.mem_cons_self f0 ft)
      have hdot : isDigitChar '.' = false := by decide
      have hfs : ∀ c ∈ f0 :: ft, isDigitChar c = true := hfd
      cases pct with
      | false =>
          show matchUnsignedNum (a ++ '.' :: (f0 :: ft) ++ []) =
            some (a ++ '.' :: (f0 :: ft) ++ [], [])
          rw [List.append_nil]
          unfold matchUnsignedNum takeDigits
          rw [takeWhile_append_exact had (takeWhile_nil_of_head _ hdot),
            dropWhile_append_exact had (dropWhile_full_of_head _ hdot)]
          simp only [hae, Bool.false_eq_true, if_false, if_neg, not_false_eq_true]
          rw [takeWhile_eq_self_of_all hfs, dropWhile_eq_nil_of_all hfs]
          simp
      | true =>
          show matchUnsignedNum (a ++ '.' :: (f0 :: ft) ++ ['%']) =
            some (a ++ '.' :: (f0 :: ft) ++ ['%'], [])
          unfold matchUnsignedNum takeDigits
          rw [List.append_assoc, List.cons_append,
            takeWhile_append_exact had (takeWhile_nil_of_head _ hdot),
            dropWhile_append_exact had (dropWhile_full_of_head _ hdot)]
          simp only [hae, Bool.false_eq_true, if_false, if_neg, not_false_eq_true]
          rw [takeWhile_append_exact hfs (by decide),
            dropWhile_append_exact hfs (by decide)]
          simp

theorem matchValueAdv_negnum (t : List Char) (c0 : Char) (t' : List Char)
    (ht : t = c0 :: t') (hc : isDigitChar c0 = true) :
    matchValueAdv ('-' :: t) = some (['-'], t) := by
  subst ht
  unfold matchValueAdv
  have hbd : isBangDash c0 = false := (digit_char_facts hc).2.1
  simp only [isBangDash]
  rw [if_pos (by simp [isBangDash])]
  rw [List.takeWhile_cons]
  simp only [isBangDash, decide_eq_true_eq]
  rw [if_pos (by simp), takeWhile_nil_of_head t' hbd]
  rfl

theorem matchValueTDA_dashnum (c0 : Char) (t' : List Char) (hc : isDigitChar c0 = true)
    (w r : List Char) (hw : matchUnsignedNum (c0 :: t') = some (w, r)) :
    matchValueTDA ('-' :: c0 :: t') = some ('-' :: w, r) := by
  have hdash : c0 ≠ '-' := (digit_char_facts hc).2.2.2.2.2.1
  unfold matchValueTDA
  rw [takeWhile_nil_of_head (c0 :: t') (by decide)]
  simp only [List.isEmpty_nil, not_true_eq_false, Bool.false_eq_true, if_false, if_neg,
    not_false_eq_true]
  split
  · rename_i t₂ heq
    exfalso
    rw [List.cons.injEq, List.cons.injEq] at heq
    exact hdash heq.2.1
  · rename_i t heq
    rw [List.cons.injEq] at heq
    rw [← heq.2, hw]
    rfl
  · rename_i hne1 hne2
    exact absurd rfl (hne2 (c0 :: t'))

theorem matchValueAdv_bangrun (v : List Char) (hne : v ≠ [])
    (hb : ∀ c ∈ v, isBangDash c = true) :
    matchValueAdv v = some (v, []) := by
  obtain ⟨c0, t, rfl⟩ : ∃ c0 t, v = c0 :: t := by
    cases v with
    | nil => exact absurd rfl hne
    | cons x y => exact ⟨x, y, rfl⟩
  unfold matchValueAdv
  dsimp only
  rw [if_pos (hb c0 (List.mem_cons_self c0 t))]
  rw [takeWhile_eq_self_of_all hb, List.drop_length]

theorem matchValueTDA_bangs (k : Nat) (hk : 1 ≤ k) :
    matchValueTDA (List.replicate k '!') = some (List.replicate k '!', []) := by
  have hall : ∀ c ∈ List.replicate k '!', (fun c => decide (c = '!')) c = true := by
    intro c hc
    rw [List.eq_of_mem_replicate hc]
    decide
  have hne : (List.replicate k '!').isEmpty = false := by
    cases k with
    | zero => omega
    | succ n => rw [List.replicate_succ]; rfl
  unfold matchValueTDA
  rw [takeWhile_eq_self_of_all hall]
  dsimp only
  rw [hne, List.drop_length]
  simp

theorem pyFloat?_no_sign (cs : List Char) (c0 : Char) (t : List Char)
    (hcs : cs = c0 :: t) (hc : isDigitChar c0 = true) :
    pyFloat? cs = pyFloatUnsigned? cs := by
  subst hcs
  have hdash : c0 ≠ '-' := (digit_char_facts hc).2.2.2.2.2.1
  have hplus : c0 ≠ '+' := (digit_char_facts hc).2.2.2.2.2.2
  unfold pyFloat?
  split
  · rename_i t' heq
    exfalso
    rw [List.cons.injEq] at heq
    exact hdash heq.1
  · rename_i t' heq
    exfalso
    rw [List.cons.injEq] at heq
    exact hplus heq.1
  · rfl

theorem pyFloatUnsigned?_digits_dot (a b : List Char) (ha : a ≠ [])
    (had : ∀ c ∈ a, isDigitChar c = true) (hbd : ∀ c ∈ b, isDigitChar c = true) :
    pyFloatUnsigned? (a ++ '.' :: b) = some (decimalVal a b) := by
  have hdot : isDigitChar '.' = false := by decide
  unfold pyFloatUnsigned? takeDigits
  rw [takeWhile_append_exact had (takeWhile_nil_of_head b hdot),
    dropWhile_append_exact had (dropWhile_full_of_head b hdot)]
  have hae : a.isEmpty = false := by
    cases a with
    | nil => exact absurd rfl ha
    | cons x y => rfl
  simp [takeWhile_eq_self_of_all hbd, dropWhile_eq_nil_of_all hbd, hae]

theorem pyFloatUnsigned?_digits_int (a : List Char) (ha : a ≠ [])
    (had : ∀ c ∈ a, isDigitChar c = true) :
    pyFloatUnsigned? a = some ((digitsToNat a : Rat)) := by
  unfold pyFloatUnsigned? takeDigits
  rw [takeWhile_eq_self_of_all had, dropWhile_eq_nil_of_all had]
  have hae : a.isEmpty = false := by
    cases a with
    | nil => exact absurd rfl ha
    | cons x y => rfl
  simp [hae]

theorem pyFloat?_digits_dot (a b : List Char) (ha : a ≠ [])
    (had : ∀ c ∈ a, isDigitChar c = true) (hbd : ∀ c ∈ b, isDigitChar c = true) :
    pyFloat? (a ++ '.' :: b) = some (decimalVal a b) := by
  obtain ⟨a0, a', rfl⟩ : ∃ a0 a', a = a0 :: a' := by
    cases a with
    | nil => exact absurd rfl ha
    | cons x y => exact ⟨x, y, rfl⟩
  rw [pyFloat?_no_sign _ a0 (a' ++ '.' :: b) (List.cons_append a0 a' ('.' :: b))
    (had a0 (List.mem_cons_self a0 a'))]
  exact pyFloatUnsigned?_digits_dot (a0 :: a') b ha had hbd

theorem pyFloat?_digits_int (a : List Char) (ha : a ≠ [])
    (had : ∀ c ∈ a, isDigitChar c = true) :
    pyFloat? a = some ((digitsToNat a : Rat)) := by
  obtain ⟨a0, a', rfl⟩ : ∃ a0 a', a = a0 :: a' := by
    cases a with
    | nil => exact absurd rfl ha
    | cons x y => exact ⟨x, y, rfl⟩
  rw [pyFloat?_no_sign _ a0 a' rfl (had a0 (List.mem_cons_self a0 a'))]
  exact pyFloatUnsigned?_digits_int (a0 :: a') ha had

theorem string_mk_data (s : String) : String.mk s.data = s := rfl

theorem suffix_shape (sfx : String) (h : sfx ∈ ltfSuffixSet ∨ sfx ∈ htfSuffixSet) :
    ∃ c0 t0, sfx.data = c0 :: t0 ∧ isAlphaChar c0 = false := by
  rcases h with h | h
  · fin_cases h
    · exact ⟨'2', [], rfl, by decide⟩
    · exact ⟨'5', [], rfl, by decide⟩
    · exact ⟨'1', ['5'], rfl, by decide⟩
    · exact ⟨'3', ['0'], rfl, by decide⟩
  · fin_cases h
    · exact ⟨'1', ['h'], rfl, by decide⟩
    · exact ⟨'4', ['h'], rfl, by decide⟩
    · exact ⟨'1', ['d'], rfl, by decide⟩
    · exact ⟨'1', ['w'], rfl, by decide⟩

theorem matchSuffixValue_valid (f : List Char → Option (List Char × List Char))
    (sfx : String) (h : sfx ∈ ltfSuffixSet ∨ sfx ∈ htfSuffixSet)
    (rest v r : List Char) (hv : f rest = some (v, r)) :
    matchSuffixValue f (sfx.data ++ '-' :: rest) = some (sfx.data, v, r) := by
  rcases h with h | h
  · fin_cases h <;>
      exact matchSuffixValue_digits f _ (by decide) (by decide) rest v r hv
  · exact matchSuffixValue_htf f sfx h rest v r hv

theorem findAllUni_token (f : List Char → Option (List Char × List Char))
    (p sfx : String) (valcs : List Char)
    (hsuf : sfx ∈ ltfSuffixSet ∨ sfx ∈ htfSuffixSet)
    (hp : p.data ≠ []) (hpa : ∀ c ∈ p.data, isAlphaChar c = true)
    (v r : List Char) (hv : f valcs = some (v, r))
    (hrest : ∀ c ∈ r, isAlphaChar c = false) :
    findAllUni f (p.data ++ sfx.data ++ '-' :: valcs) = [(p.data, sfx.data, v)] := by
  obtain ⟨c0, t0, hdata, hc0⟩ := suffix_shape sfx hsuf
  have hsv := matchSuffixValue_valid f sfx hsuf valcs v r hv
  have htail : (sfx.data ++ '-' :: valcs).takeWhile isAlphaChar = [] := by
    rw [hdata, List.cons_append]
    exact takeWhile_nil_of_head _ hc0
  have hm : tryMatchUni f (p.data ++ (sfx.data ++ '-' :: valcs)) =
      some ⟨p.data, sfx.data, v, r⟩ :=
    tryMatchUni_append f p.data _ hp hpa htail _ _ _ hsv
  simpa using findAllUni_single f _ _ hm hrest

theorem processTripleAdv_dashOnly (p sfx : String)
    (hval : (sfx ∈ ltfSuffixSet ∧ p ∈ ltfFieldPrefixSet) ∨
            (sfx ∈ htfSuffixSet ∧ p ∈ htfFieldPrefixSet)) :
    processTripleAdv (p.data, sfx.data, ['-']) = [(p ++ sfx, PyVal.str "-")] := by
  unfold processTripleAdv
  dsimp only
  rw [string_mk_data, string_mk_data]
  rw [if_pos hval]
  rw [if_neg (fun hx => absurd hx.2 (by decide))]
  rw [if_neg (by decide)]

theorem processTripleTDA_negnum (p sfx : String) (a b : List Char)
    (ha : a ≠ []) (had : ∀ c ∈ a, isDigitChar c = true)
    (hbd : ∀ c ∈ b, isDigitChar c = true) :
    processTripleTDA (p.data, sfx.data, '-' :: (a ++ '.' :: b)) =
      .ok [(p ++ sfx, PyVal.num (-(decimalVal a b)))] := by
  obtain ⟨a0, a', rfl⟩ : ∃ a0 a', a = a0 :: a' := by
    cases a with
    | nil => exact absurd rfl ha
    | cons x y => exact ⟨x, y, rfl⟩
  have h0 := had a0 (List.mem_cons_self a0 a')
  have hnomem : ∀ x : Char, isDigitChar x = false → x ≠ '-' → x ≠ '.' →
      x ∉ ('-' :: ((a0 :: a') ++ '.' :: b)) := by
    intro x hx hxd hxdot hmem
    rcases List.mem_cons.mp hmem with h | h
    · exact hxd h
    · rcases List.mem_append.mp h with h | h
      · rw [had x h] at hx
        cases hx
      · rcases List.mem_cons.mp h with h | h
        · exact hxdot h
        · rw [hbd x h] at hx
          cases hx
  have hnotbang : (('-' :: ((a0 :: a') ++ '.' :: b)).contains '!') = false := by
    have := hnomem '!' (by decide) (by decide) (by decide)
    simpa using this
  have hnotpct : (('-' :: ((a0 :: a') ++ '.' :: b)).contains '%') = false := by
    have := hnomem '%' (by decide) (by decide) (by decide)
    simpa using this
  have ha0dash : a0 ≠ '-' := (digit_char_facts h0).2.2.2.2.2.1
  have hfl : pyFloat? ((a0 :: a') ++ '.' :: b) = some (decimalVal (a0 :: a') b) :=
    pyFloat?_digits_dot (a0 :: a') b ha had hbd
  have htake2 : (('-' :: ((a0 :: a') ++ '.' :: b)).take 2) ≠ ['-', '-'] := by
    rw [List.cons_append]
    intro hx
    rw [List.take_succ_cons, List.take_succ_cons, List.take_zero] at hx
    rw [List.cons.injEq, List.cons.injEq] at hx
    exact ha0dash hx.2.1
  unfold processTripleTDA
  dsimp only
  rw [string_mk_data, string_mk_data]
  rw [if_neg (fun hx => by rw [hnotbang] at hx; cases hx)]
  rw [if_neg (fun hx => by rw [hnotpct] at hx; cases hx)]
  rw [if_neg htake2]
  rw [if_pos (by rw [List.cons_append, List.take_succ_cons, List.take_zero])]
  rw [show List.drop 1 ('-' :: ((a0 :: a') ++ '.' :: b)) = (a0 :: a') ++ '.' :: b from rfl]
  rw [hfl]

/-- **C1** (counterexample). On the line `ef2--7.19`,
`AdvancedLogParser._extract_all_indicator_fields` does *not* store
`ef2 = -7.19`: the value alternative `[!-]+` of its regex wins on the second
dash and captures only `-`, so the field is stored as the literal string
`"-"`. -/
theorem double_dash_adv_counterexample :
    extractAllIndicatorFieldsAdv "ef2--7.19" = [("ef2", PyVal.str "-")] ∧
    List.lookup "ef2" (extractAllIndicatorFieldsAdv "ef2--7.19") ≠
      some (PyVal.num (-(719 / 100))) := by
  have h : extractAllIndicatorFieldsAdv "ef2--7.19" = [("ef2", PyVal.str "-")] := by
    with_unfolding_all rfl
  refine ⟨h, ?_⟩
  rw [h]
  simp [List.lookup]

/-- **C1** (amended). For a log line consisting of a double-dash negative
token — a valid prefix, a valid timeframe suffix, then `--` followed by a
decimal number `a.b` — `TrueDataDrivenAnalyzer.parse_line_all_fields`
stores the field `prefix+suffix` with the negative numeric value, but
`AdvancedLogParser._extract_all_indicator_fields` captures only the first
`-` as the value and stores the field as the literal string `"-"` (with no
numeric value and no `_type` tag). -/
theorem double_dash_token_extraction (p sfx : String) (a b : List Char)
    (hval : (sfx ∈ ltfSuffixSet ∧ p ∈ ltfFieldPrefixSet) ∨
            (sfx ∈ htfSuffixSet ∧ p ∈ htfFieldPrefixSet))
    (hp : p.data ≠ []) (hpa : ∀ c ∈ p.data, isAlphaChar c = true)
    (ha : a ≠ []) (had : ∀ c ∈ a, isDigitChar c = true)
    (hb : b ≠ []) (hbd : ∀ c ∈ b, isDigitChar c = true) :
    parseLineAllFieldsTDA
        (String.mk (p.data ++ sfx.data ++ '-' :: '-' :: (a ++ '.' :: b))) =
      .ok [(p ++ sfx, PyVal.num (-(decimalVal a b)))] ∧
    extractAllIndicatorFieldsAdv
        (String.mk (p.data ++ sfx.data ++ '-' :: '-' :: (a ++ '.' :: b))) =
      [(p ++ sfx, PyVal.str "-")] := by
  obtain ⟨a0, a', rfl⟩ : ∃ a0 a', a = a0 :: a' := by
    cases a with
    | nil => exact absurd rfl ha
    | cons x y => exact ⟨x, y, rfl⟩
  have h0 := had a0 (List.mem_cons_self a0 a')
  have hsuf : sfx ∈ ltfSuffixSet ∨ sfx ∈ htfSuffixSet := by
    rcases hval with ⟨h, _⟩ | ⟨h, _⟩
    · exact Or.inl h
    · exact Or.inr h
  have hrestAdv : ∀ c ∈ (a0 :: a') ++ '.' :: b, isAlphaChar c = false := by
    intro c hc
    rcases List.mem_append.mp hc with h | h
    · exact (digit_char_facts (had c h)).1
    · rcases List.mem_cons.mp h with h | h
      · rw [h]
        decide
      · exact (digit_char_facts (hbd c h)).1
  constructor
  · have hvtda : matchValueTDA ('-' :: ((a0 :: a') ++ '.' :: b)) =
        some ('-' :: ((a0 :: a') ++ '.' :: b), []) := by
      have hun : matchUnsignedNum ((a0 :: a') ++ '.' :: b) =
          some ((a0 :: a') ++ '.' :: b, []) := by
        have := matchUnsignedNum_shape (a0 :: a') b false ha had hbd
        have hbem : b.isEmpty = false := by
          cases b with
          | nil => exact absurd rfl hb
          | cons x y => rfl
        rw [hbem] at this
        simpa using this
      have := matchValueTDA_dashnum a0 (a' ++ '.' :: b) h0
        ((a0 :: a') ++ '.' :: b) [] (by rwa [List.cons_append] at hun)
      rwa [List.cons_append] at this ⊢
    have hfind := findAllUni_token matchValueTDA p sfx ('-' :: ((a0 :: a') ++ '.' :: b))
      hsuf hp hpa ('-' :: ((a0 :: a') ++ '.' :: b)) [] hvtda (by intro c hc; cases hc)
    unfold parseLineAllFieldsTDA
    rw [show (String.mk (p.data ++ sfx.data ++ '-' :: '-' :: ((a0 :: a') ++ '.' :: b))).toList =
        p.data ++ sfx.data ++ '-' :: '-' :: ((a0 :: a') ++ '.' :: b) from rfl]
    rw [hfind]
    unfold foldTriplesTDA
    rw [processTripleTDA_negnum p sfx (a0 :: a') b ha had hbd]
    unfold foldTriplesTDA
    simp [applyAssignments, dictSet]
  · have hvadv : matchValueAdv ('-' :: ((a0 :: a') ++ '.' :: b)) =
        some (['-'], (a0 :: a') ++ '.' :: b) :=
      matchValueAdv_negnum ((a0 :: a') ++ '.' :: b) a0 (a' ++ '.' :: b)
        (List.cons_append a0 a' ('.' :: b)) h0
    have hfind := findAllUni_token matchValueAdv p sfx ('-' :: ((a0 :: a') ++ '.' :: b))
      hsuf hp hpa ['-'] ((a0 :: a') ++ '.' :: b) hvadv hrestAdv
    unfold extractAllIndicatorFieldsAdv
    rw [show (String.mk (p.data ++ sfx.data ++ '-' :: '-' :: ((a0 :: a') ++ '.' :: b))).toList =
        p.data ++ sfx.data ++ '-' :: '-' :: ((a0 :: a') ++ '.' :: b) from rfl]
    rw [hfind]
    rw [List.foldl_cons, List.foldl_nil]
    rw [processTripleAdv_dashOnly p sfx hval]
    simp [applyAssignments, dictSet]

/-- Witness for C1 (amended) at the spec's own example token `ef2--7.19`. -/
theorem double_dash_token_extraction_witness :
    parseLineAllFieldsTDA "ef2--7.19" =
      .ok [("ef2", PyVal.num (-(decimalVal ['7'] ['1', '9'])))] ∧
    extractAllIndicatorFieldsAdv "ef2--7.19" = [("ef2", PyVal.str "-")] :=
  double_dash_token_extraction "ef" "2" ['7'] ['1', '9']
    (Or.inl ⟨by decide, by decide⟩) (by decide) (by decide) (by decide) (by decide)
    (by decide) (by decide)

theorem processTripleAdv_bangs (sfx : String) (k : Nat) (hk : 1 ≤ k)
    (hsuf : sfx ∈ ltfSuffixSet ∨ sfx ∈ htfSuffixSet) :
    processTripleAdv (("nw" : String).data, sfx.data, List.replicate k '!') =
      [("nw" ++ sfx, PyVal.num (k : Rat)),
       ("nw" ++ sfx ++ "_signal", PyVal.str (String.mk (List.replicate k '!')))] := by
  have hval : (sfx ∈ ltfSuffixSet ∧ ("nw" : String) ∈ ltfFieldPrefixSet) ∨
      (sfx ∈ htfSuffixSet ∧ ("nw" : String) ∈ htfFieldPrefixSet) := by
    rcases hsuf with h | h
    · exact Or.inl ⟨h, by decide⟩
    · exact Or.inr ⟨h, by decide⟩
  have hmem : '!' ∈ List.replicate k '!' := List.mem_replicate.mpr ⟨by omega, rfl⟩
  have hcont : (List.replicate k '!').contains '!' = true := by simpa using hmem
  unfold processTripleAdv
  dsimp only
  rw [string_mk_data, string_mk_data]
  rw [if_pos hval]
  rw [if_pos ⟨rfl, hcont⟩]
  rw [List.length_replicate]

theorem processTripleTDA_bangs (sfx : String) (k : Nat) (hk : 1 ≤ k) :
    processTripleTDA (("nw" : String).data, sfx.data, List.replicate k '!') =
      .ok [("nw" ++ sfx, PyVal.num (k : Rat)),
           ("nw" ++ sfx ++ "_signal", PyVal.str (String.mk (List.replicate k '!')))] := by
  have hmem : '!' ∈ List.replicate k '!' := List.mem_replicate.mpr ⟨by omega, rfl⟩
  have hcont : (List.replicate k '!').contains '!' = true := by simpa using hmem
  unfold processTripleTDA
  dsimp only
  rw [string_mk_data, string_mk_data]
  rw [if_pos hcont]
  rw [List.length_replicate]

/-- **C2.** For a log line consisting of an exclamation-mark sentinel token
(`nw`, a valid timeframe suffix, `-`, then `k ≥ 1` bang characters), both
`AdvancedLogParser._extract_all_indicator_fields` and
`TrueDataDrivenAnalyzer.parse_line_all_fields` store the field
`nw`+suffix with the count `k` of `!` characters as its value, and the raw
signal string under the companion key `<field>_signal`. -/
theorem bang_token_extraction (sfx : String) (k : Nat)
    (hsuf : sfx ∈ ltfSuffixSet ∨ sfx ∈ htfSuffixSet) (hk : 1 ≤ k) :
    extractAllIndicatorFieldsAdv
        (String.mk (("nw" : String).data ++ sfx.data ++ '-' :: List.replicate k '!')) =
      [("nw" ++ sfx, PyVal.num (k : Rat)),
       ("nw" ++ sfx ++ "_signal", PyVal.str (String.mk (List.replicate k '!')))] ∧
    parseLineAllFieldsTDA
        (String.mk (("nw" : String).data ++ sfx.data ++ '-' :: List.replicate k '!')) =
      .ok [("nw" ++ sfx, PyVal.num (k : Rat)),
           ("nw" ++ sfx ++ "_signal", PyVal.str (String.mk (List.replicate k '!')))] := by
  have hbne : List.replicate k '!' ≠ [] := by
    cases k with
    | zero => omega
    | succ n => rw [List.replicate_succ]; intro hx; cases hx
  have hball : ∀ c ∈ List.replicate k '!', isBangDash c = true := by
    intro c hc
    rw [List.eq_of_mem_replicate hc]
    decide
  have hnameNe : ("nw" ++ sfx : String) ≠ "nw" ++ sfx ++ "_signal" :=
    fun hx => string_append_ne ("nw" ++ sfx) "_signal" (by decide) hx.symm
  constructor
  · have hv := matchValueAdv_bangrun (List.replicate k '!') hbne hball
    have hfind := findAllUni_token matchValueAdv "nw" sfx (List.replicate k '!')
      hsuf (by decide) (by decide) (List.replicate k '!') [] hv
      (by intro c hc; cases hc)
    unfold extractAllIndicatorFieldsAdv
    rw [show (String.mk (("nw" : String).data ++ sfx.data ++ '-' :: List.replicate k '!')).toList =
        ("nw" : String).data ++ sfx.data ++ '-' :: List.replicate k '!' from rfl]
    rw [hfind]
    rw [List.foldl_cons, List.foldl_nil]
    rw [processTripleAdv_bangs sfx k hk hsuf]
    simp [applyAssignments, dictSet, hnameNe]
  · have hv := matchValueTDA_bangs k hk
    have hfind := findAllUni_token matchValueTDA "nw" sfx (List.replicate k '!')
      hsuf (by decide) (by decide) (List.replicate k '!') [] hv
      (by intro c hc; cases hc)
    unfold parseLineAllFieldsTDA
    rw [show (String.mk (("nw" : String).data ++ sfx.data ++ '-' :: List.replicate k '!')).toList =
        ("nw" : String).data ++ sfx.data ++ '-' :: List.replicate k '!' from rfl]
    rw [hfind]
    unfold foldTriplesTDA
    rw [processTripleTDA_bangs sfx k hk]
    unfold foldTriplesTDA
    simp [applyAssignments, dictSet, hnameNe]

/-- Witness for C2 at the spec's own example token `nw2-!!`. -/
theorem bang_token_extraction_witness :
    extractAllIndicatorFieldsAdv "nw2-!!" =
      [("nw2", PyVal.num (2 : Rat)), ("nw2_signal", PyVal.str "!!")] ∧
    parseLineAllFieldsTDA "nw2-!!" =
      .ok [("nw2", PyVal.num (2 : Rat)), ("nw2_signal", PyVal.str "!!")] :=
  bang_token_extraction "2" 2 (Or.inl (by decide)) (by decide)

theorem string_append_ne_append (s t₁ t₂ : String) (h : t₁.length ≠ t₂.length) :
    s ++ t₁ ≠ s ++ t₂ := by
  intro he
  apply h
  have hdata : s.data ++ t₁.data = s.data ++ t₂.data := congrArg String.data he
  have := List.append_cancel_left hdata
  show t₁.data.length = t₂.data.length
  rw [this]

theorem advBang_not_num {v : List Char} (hb : advBangValue v) : ¬ advNumValue v := by
  rintro ⟨ds, fs, pct, heq, hdne, hdd, _⟩
  obtain ⟨d0, ds', rfl⟩ : ∃ d0 ds', ds = d0 :: ds' := by
    cases ds with
    | nil => exact absurd rfl hdne
    | cons x y => exact ⟨x, y, rfl⟩
  have hd0 : isDigitChar d0 = true := hdd d0 (List.mem_cons_self d0 ds')
  have hmem : d0 ∈ v := by
    rw [heq, List.cons_append, List.cons_append]
    exact List.mem_cons_self d0 _
  have hbd : isBangDash d0 = true := hb.2 d0 hmem
  rw [(digit_char_facts hd0).2.1] at hbd
  cases hbd

theorem bang_not_digitstr {v : List Char} (hb : advBangValue v) :
    pyIsDigitStr (pyStripNumChars v) = false := by
  cases hst : pyStripNumChars v with
  | nil => rfl
  | cons c cs =>
      have hcmem : c ∈ pyStripNumChars v := by rw [hst]; exact List.mem_cons_self c cs
      unfold pyStripNumChars at hcmem
      have hcv := List.mem_of_mem_filter hcmem
      have hcp := List.of_mem_filter hcmem
      simp only [decide_eq_true_eq] at hcp
      have hbd : isBangDash c = true := hb.2 c hcv
      have hcbang : c = '!' := by
        simp only [isBangDash, Bool.or_eq_true, decide_eq_true_eq] at hbd
        rcases hbd with h | h
        · exact h
        · exact absurd h hcp.1
      unfold pyIsDigitStr
      rw [List.all_cons, hcbang]
      simp [isDigitChar]

theorem num_strip_eq {ds fs : List Char} {pct : Bool}
    (hdd : ∀ c ∈ ds, isDigitChar c = true) (hfd : ∀ c ∈ fs, isDigitChar c = true) :
    pyStripNumChars (ds ++ (if fs.isEmpty then [] else '.' :: fs) ++
      (if pct then ['%'] else [])) = ds ++ fs := by
  have hkeep : ∀ (l : List Char), (∀ c ∈ l, isDigitChar c = true) →
      pyStripNumChars l = l := by
    intro l hl
    unfold pyStripNumChars
    rw [List.filter_eq_self]
    intro c hc
    have h := digit_char_facts (hl c hc)
    simp [h.2.2.1, h.2.2.2.1, h.2.2.2.2.2.1]
  unfold pyStripNumChars
  rw [List.filter_append, List.filter_append]
  have h1 : List.filter (fun c => decide (c ≠ '-' ∧ c ≠ '.' ∧ c ≠ '%')) ds = ds := hkeep ds hdd
  have h2 : List.filter (fun c => decide (c ≠ '-' ∧ c ≠ '.' ∧ c ≠ '%'))
      (if fs.isEmpty then [] else '.' :: fs) = fs := by
    cases fs with
    | nil => rfl
    | cons f0 ft =>
        rw [if_neg (by simp)]
        rw [List.filter_cons_of_neg (by decide)]
        exact hkeep (f0 :: ft) hfd
  have h3 : List.filter (fun c => decide (c ≠ '-' ∧ c ≠ '.' ∧ c ≠ '%'))
      (if pct then ['%'] else []) = [] := by
    cases pct with
    | false => rfl
    | true => rw [if_pos rfl]; rfl
  rw [h1, h2, h3, List.append_nil]

theorem num_no_char {ds fs : List Char} {pct : Bool} (x : Char)
    (hdd : ∀ c ∈ ds, isDigitChar c = true) (hfd : ∀ c ∈ fs, isDigitChar c = true)
    (hx : isDigitChar x = false) (hxdot : x ≠ '.') (hxpct : x ≠ '%') :
    (ds ++ (if fs.isEmpty then [] else '.' :: fs) ++
      (if pct then ['%'] else [])).contains x = false := by
  have hmem : x ∉ ds ++ (if fs.isEmpty then [] else '.' :: fs) ++
      (if pct then ['%'] else []) := by
    intro hmem
    rcases List.mem_append.mp hmem with h | h
    · rcases List.mem_append.mp h with h | h
      · rw [hdd x h] at hx; cases hx
      · cases fs with
        | nil => cases h
        | cons f0 ft =>
            rw [if_neg (by simp)] at h
            rcases List.mem_cons.mp h with h | h
            · exact hxdot h
            · rw [hfd x h] at hx; cases hx
    · cases pct with
      | false => cases h
      | true =>
          rw [if_pos rfl] at h
          rcases List.mem_cons.mp h with h | h
          · exact hxpct h
          · cases h
  simpa using hmem

theorem num_filter_pct {ds fs : List Char} {pct : Bool}
    (hdd : ∀ c ∈ ds, isDigitChar c = true) (hfd : ∀ c ∈ fs, isDigitChar c = true) :
    (ds ++ (if fs.isEmpty then [] else '.' :: fs) ++
        (if pct then ['%'] else [])).filter (fun c => c ≠ '%') =
      ds ++ (if fs.isEmpty then [] else '.' :: fs) := by
  have hkeep : ∀ (l : List Char), (∀ c ∈ l, isDigitChar c = true) →
      List.filter (fun c => decide (c ≠ '%')) l = l := by
    intro l hl
    rw [List.filter_eq_self]
    intro c hc
    simp [(digit_char_facts (hl c hc)).2.2.2.1]
  rw [List.filter_append, List.filter_append]
  rw [hkeep ds hdd]
  have h2 : List.filter (fun c => decide (c ≠ '%'))
      (if fs.isEmpty then [] else '.' :: fs) = (if fs.isEmpty then [] else '.' :: fs) := by
    cases fs with
    | nil => rfl
    | cons f0 ft =>
        rw [if_neg (by simp)]
        rw [List.filter_cons_of_pos (by decide)]
        rw [hkeep (f0 :: ft) hfd]
  have h3 : List.filter (fun c => decide (c ≠ '%')) (if pct then ['%'] else []) = [] := by
    cases pct with
    | false => rfl
    | true => rw [if_pos rfl]; rfl
  rw [h2, h3, List.append_nil]

theorem num_pyFloat {ds fs : List Char} (hdne : ds ≠ [])
    (hdd : ∀ c ∈ ds, isDigitChar c = true) (hfd : ∀ c ∈ fs, isDigitChar c = true) :
    pyFloat? (ds ++ (if fs.isEmpty then [] else '.' :: fs)) =
      some (if fs.isEmpty then (digitsToNat ds : Rat) else decimalVal ds fs) := by
  cases fs with
  | nil =>
      rw [if_pos (show ([] : List Char).isEmpty = true from rfl), List.append_nil]
      exact pyFloat?_digits_int ds hdne hdd
  | cons f0 ft =>
      rw [if_neg (by simp)]
      exact pyFloat?_digits_dot ds (f0 :: ft) hdne hdd hfd

theorem suffix_sets_disjoint (s : String) (h1 : s ∈ ltfSuffixSet)
    (h2 : s ∈ htfSuffixSet) : False := by
  fin_cases h1 <;> revert h2 <;> decide

/-- **C3** (counterexample).  The token `nw2-!!` has an LTF suffix and an
LTF prefix and its field `nw2` is stored, yet no `nw2_type` tag is ever
written: the `_type` marking happens only in the numeric-value branch of
`_extract_all_indicator_fields`, which the `!`-signal branch bypasses.  So
"tagged LTF exactly when the suffix and prefix are LTF" fails. -/
theorem ltf_htf_field_tagging_counterexample :
    ("2" : String) ∈ ltfSuffixSet ∧ ("nw" : String) ∈ ltfFieldPrefixSet ∧
    List.lookup "nw2" (extractAllIndicatorFieldsAdv "nw2-!!") =
      some (PyVal.num 2) ∧
    List.lookup "nw2_type" (extractAllIndicatorFieldsAdv "nw2-!!") = none := by
  refine ⟨by decide, by decide, ?_, ?_⟩
  · with_unfolding_all rfl
  · with_unfolding_all rfl

/-- **C3** (amended).  For every match triple `(prefix, suffix, value)` of
the universal pattern processed by
`AdvancedLogParser._extract_all_indicator_fields` (whose captured values
are bang-dash runs or unsigned decimals): a triple whose suffix/prefix
pair is in neither the LTF nor the HTF class is discarded; a valid triple
always stores the field; and the stored field carries an `_type` tag
(`LTF` resp. `HTF`) exactly when it is valid for that class *and* the
captured value is numeric — `!`-signal and other non-numeric values are
stored untagged. -/
theorem ltf_htf_field_tagging (pdata sdata v : List Char)
    (hshape : advBangValue v ∨ advNumValue v) :
    (¬ ((String.mk sdata ∈ ltfSuffixSet ∧ String.mk pdata ∈ ltfFieldPrefixSet) ∨
        (String.mk sdata ∈ htfSuffixSet ∧ String.mk pdata ∈ htfFieldPrefixSet)) →
      processTripleAdv (pdata, sdata, v) = []) ∧
    (((String.mk sdata ∈ ltfSuffixSet ∧ String.mk pdata ∈ ltfFieldPrefixSet) ∨
      (String.mk sdata ∈ htfSuffixSet ∧ String.mk pdata ∈ htfFieldPrefixSet)) →
      ∃ pv, (String.mk pdata ++ String.mk sdata, pv) ∈
        processTripleAdv (pdata, sdata, v)) ∧
    (((String.mk pdata ++ String.mk sdata) ++ "_type", PyVal.str "LTF") ∈
        processTripleAdv (pdata, sdata, v) ↔
      ((String.mk sdata ∈ ltfSuffixSet ∧ String.mk pdata ∈ ltfFieldPrefixSet) ∧
        advNumValue v)) ∧
    (((String.mk pdata ++ String.mk sdata) ++ "_type", PyVal.str "HTF") ∈
        processTripleAdv (pdata, sdata, v) ↔
      ((String.mk sdata ∈ htfSuffixSet ∧ String.mk pdata ∈ htfFieldPrefixSet) ∧
        advNumValue v)) := by
  have hTne : (String.mk pdata ++ String.mk sdata) ++ "_type" ≠
      String.mk pdata ++ String.mk sdata :=
    string_append_ne (String.mk pdata ++ String.mk sdata) "_type" (by decide)
  have hTSne : (String.mk pdata ++ String.mk sdata) ++ "_type" ≠
      (String.mk pdata ++ String.mk sdata) ++ "_signal" :=
    string_append_ne_append (String.mk pdata ++ String.mk sdata) "_type" "_signal"
      (by decide)
  by_cases hvalid : ((String.mk sdata ∈ ltfSuffixSet ∧
      String.mk pdata ∈ ltfFieldPrefixSet) ∨
      (String.mk sdata ∈ htfSuffixSet ∧ String.mk pdata ∈ htfFieldPrefixSet))
  case neg =>
    have hP : processTripleAdv (pdata, sdata, v) = [] := by
      unfold processTripleAdv
      dsimp only
      rw [if_neg hvalid]
    rw [hP]
    refine ⟨fun _ => rfl, fun h => absurd h hvalid, ?_, ?_⟩
    · constructor
      · intro hmem
        cases hmem
      · rintro ⟨h1, _⟩
        exact absurd (Or.inl h1) hvalid
    · constructor
      · intro hmem
        cases hmem
      · rintro ⟨h1, _⟩
        exact absurd (Or.inr h1) hvalid
  case pos =>
    rcases hshape with hb | hn
    · -- bang-dash run: no tag is ever written
      have hnum := advBang_not_num hb
      by_cases hnw : String.mk pdata = "nw" ∧ v.contains '!' = true
      · have hP : processTripleAdv (pdata, sdata, v) =
            [(String.mk pdata ++ String.mk sdata, PyVal.num (v.length : Rat)),
             ((String.mk pdata ++ String.mk sdata) ++ "_signal",
               PyVal.str (String.mk v))] := by
          unfold processTripleAdv
          dsimp only
          rw [if_pos hvalid, if_pos hnw]
        rw [hP]
        refine ⟨fun h => absurd hvalid h, ?_, ?_, ?_⟩
        · exact fun _ => ⟨PyVal.num (v.length : Rat), List.mem_cons_self _ _⟩
        · constructor
          · intro hmem
            exfalso
            rcases List.mem_cons.mp hmem with he | hmem2
            · exact hTne (congrArg Prod.fst he)
            · rcases List.mem_singleton.mp hmem2 with he2
              exact hTSne (congrArg Prod.fst he2)
          · rintro ⟨_, hnv⟩
            exact absurd hnv hnum
        · constructor
          · intro hmem
            exfalso
            rcases List.mem_cons.mp hmem with he | hmem2
            · exact hTne (congrArg Prod.fst he)
            · rcases List.mem_singleton.mp hmem2 with he2
              exact hTSne (congrArg Prod.fst he2)
          · rintro ⟨_, hnv⟩
            exact absurd hnv hnum
      · have hP : processTripleAdv (pdata, sdata, v) =
            [(String.mk pdata ++ String.mk sdata, PyVal.str (String.mk v))] := by
          unfold processTripleAdv
          dsimp only
          rw [if_pos hvalid, if_neg hnw,
            if_neg (fun hx => by rw [bang_not_digitstr hb] at hx; cases hx)]
        rw [hP]
        refine ⟨fun h => absurd hvalid h, ?_, ?_, ?_⟩
        · exact fun _ => ⟨PyVal.str (String.mk v), List.mem_cons_self _ _⟩
        · constructor
          · intro hmem
            exact absurd (congrArg Prod.fst (List.mem_singleton.mp hmem)) hTne
          · rintro ⟨_, hnv⟩
            exact absurd hnv hnum
        · constructor
          · intro hmem
            exact absurd (congrArg Prod.fst (List.mem_singleton.mp hmem)) hTne
          · rintro ⟨_, hnv⟩
            exact absurd hnv hnum
    · -- numeric value: the field is stored and tagged for its class
      obtain ⟨ds, fs, pct, rfl, hdne, hdd, hfd⟩ := hn
      have hnv : advNumValue (ds ++ (if fs.isEmpty then [] else '.' :: fs) ++
          (if pct then ['%'] else [])) := ⟨ds, fs, pct, rfl, hdne, hdd, hfd⟩
      have hnobang := @num_no_char ds fs pct '!' hdd hfd (by decide) (by decide)
        (by decide)
      have hnw_false : ¬ (String.mk pdata = "nw" ∧
          (ds ++ (if fs.isEmpty then [] else '.' :: fs) ++
            (if pct then ['%'] else [])).contains '!' = true) := by
        rintro ⟨_, hx⟩
        rw [hnobang] at hx
        cases hx
      have hdig : pyIsDigitStr (pyStripNumChars
          (ds ++ (if fs.isEmpty then [] else '.' :: fs) ++
            (if pct then ['%'] else []))) = true := by
        rw [num_strip_eq hdd hfd]
        obtain ⟨d0, ds', rfl⟩ : ∃ d0 ds', ds = d0 :: ds' := by
          cases ds with
          | nil => exact absurd rfl hdne
          | cons x y => exact ⟨x, y, rfl⟩
        unfold pyIsDigitStr
        rw [Bool.and_eq_true]
        constructor
        · rw [List.cons_append]
          rfl
        · rw [List.all_eq_true]
          intro c hc
          rcases List.mem_append.mp hc with h | h
          · exact hdd c h
          · exact hfd c h
      have hq : pyFloat? ((ds ++ (if fs.isEmpty then [] else '.' :: fs) ++
            (if pct then ['%'] else [])).filter (fun c => c ≠ '%')) =
          some (if fs.isEmpty then (digitsToNat ds : Rat) else decimalVal ds fs) := by
        rw [num_filter_pct hdd hfd]
        exact num_pyFloat hdne hdd hfd
      by_cases hltf : String.mk sdata ∈ ltfSuffixSet
      · have hvLtf : String.mk sdata ∈ ltfSuffixSet ∧
            String.mk pdata ∈ ltfFieldPrefixSet := by
          rcases hvalid with h | h
          · exact h
          · exact absurd h.1 (fun hx => suffix_sets_disjoint _ hltf hx)
        have hP : processTripleAdv (pdata, sdata,
            ds ++ (if fs.isEmpty then [] else '.' :: fs) ++
              (if pct then ['%'] else [])) =
            [(String.mk pdata ++ String.mk sdata,
               PyVal.num (if fs.isEmpty then (digitsToNat ds : Rat)
                 else decimalVal ds fs)),
             ((String.mk pdata ++ String.mk sdata) ++ "_type", PyVal.str "LTF")] := by
          unfold processTripleAdv
          dsimp only
          rw [if_pos hvalid, if_neg hnw_false, if_pos hdig, hq, if_pos hltf]
        rw [hP]
        refine ⟨fun h => absurd hvalid h, ?_, ?_, ?_⟩
        · exact fun _ => ⟨_, List.mem_cons_self _ _⟩
        · exact iff_of_true (List.mem_cons_of_mem _ (List.mem_singleton.mpr rfl))
            ⟨hvLtf, hnv⟩
        · constructor
          · intro hmem
            exfalso
            rcases List.mem_cons.mp hmem with he | hmem2
            · exact hTne (congrArg Prod.fst he)
            · have := List.mem_singleton.mp hmem2
              rw [Prod.mk.injEq, PyVal.str.injEq] at this
              exact absurd this.2 (by decide)
          · rintro ⟨h1, _⟩
            exact absurd h1.1 (fun hx => suffix_sets_disjoint _ hltf hx)
      · have hvHtf : String.mk sdata ∈ htfSuffixSet ∧
            String.mk pdata ∈ htfFieldPrefixSet := by
          rcases hvalid with h | h
          · exact absurd h.1 hltf
          · exact h
        have hP : processTripleAdv (pdata, sdata,
            ds ++ (if fs.isEmpty then [] else '.' :: fs) ++
              (if pct then ['%'] else [])) =
            [(String.mk pdata ++ String.mk sdata,
               PyVal.num (if fs.isEmpty then (digitsToNat ds : Rat)
                 else decimalVal ds fs)),
             ((String.mk pdata ++ String.mk sdata) ++ "_type", PyVal.str "HTF")] := by
          unfold processTripleAdv
          dsimp only
          rw [if_pos hvalid, if_neg hnw_false, if_pos hdig, hq, if_neg hltf,
            if_pos hvHtf.1]
        rw [hP]
        refine ⟨fun h => absurd hvalid h, ?_, ?_, ?_⟩
        · exact fun _ => ⟨_, List.mem_cons_self _ _⟩
        · constructor
          · intro hmem
            exfalso
            rcases List.mem_cons.mp hmem with he | hmem2
            · exact hTne (congrArg Prod.fst he)
            · have := List.mem_singleton.mp hmem2
              rw [Prod.mk.injEq, PyVal.str.injEq] at this
              exact absurd this.2 (by decide)
          · rintro ⟨h1, _⟩
            exact absurd h1.1 hltf
        · exact iff_of_true (List.mem_cons_of_mem _ (List.mem_singleton.mpr rfl))
            ⟨hvHtf, hnv⟩

/-- Witness for C3 (amended) at the numeric triple `(vc, 2, 2.4)` of the
sample line. -/
theorem ltf_htf_field_tagging_witness :
    (advBangValue ['2', '.', '4'] ∨ advNumValue ['2', '.', '4']) ∧
    ((¬ ((String.mk ['2'] ∈ ltfSuffixSet ∧ String.mk ['v', 'c'] ∈ ltfFieldPrefixSet) ∨
        (String.mk ['2'] ∈ htfSuffixSet ∧ String.mk ['v', 'c'] ∈ htfFieldPrefixSet)) →
      processTripleAdv (['v', 'c'], ['2'], ['2', '.', '4']) = []) ∧
    (((String.mk ['2'] ∈ ltfSuffixSet ∧ String.mk ['v', 'c'] ∈ ltfFieldPrefixSet) ∨
      (String.mk ['2'] ∈ htfSuffixSet ∧ String.mk ['v', 'c'] ∈ htfFieldPrefixSet)) →
      ∃ pv, (String.mk ['v', 'c'] ++ String.mk ['2'], pv) ∈
        processTripleAdv (['v', 'c'], ['2'], ['2', '.', '4'])) ∧
    (((String.mk ['v', 'c'] ++ String.mk ['2']) ++ "_type", PyVal.str "LTF") ∈
        processTripleAdv (['v', 'c'], ['2'], ['2', '.', '4']) ↔
      ((String.mk ['2'] ∈ ltfSuffixSet ∧ String.mk ['v', 'c'] ∈ ltfFieldPrefixSet) ∧
        advNumValue ['2', '.', '4'])) ∧
    (((String.mk ['v', 'c'] ++ String.mk ['2']) ++ "_type", PyVal.str "HTF") ∈
        processTripleAdv (['v', 'c'], ['2'], ['2', '.', '4']) ↔
      ((String.mk ['2'] ∈ htfSuffixSet ∧ String.mk ['v', 'c'] ∈ htfFieldPrefixSet) ∧
        advNumValue ['2', '.', '4']))) :=
  ⟨Or.inr ⟨['2'], ['4'], false, by decide, by decide, by decide, by decide⟩,
    ltf_htf_field_tagging ['v', 'c'] ['2'] ['2', '.', '4']
      (Or.inr ⟨['2'], ['4'], false, by decide, by decide, by decide, by decide⟩)⟩

/-- **C6.** Every low event emitted by
`TrueDataDrivenAnalyzer.detect_extrema_events` has its index in
`[10, len(df) - 40)` and sits at a strict local minimum of the lows over
the ±10 window; it is typed `low_with_rebound_3pct` exactly when the
maximal high of `df.iloc[idx:idx+30]` (the event row and the 29 following)
is at least 3% above the event low.  High events are symmetric: strict
local maxima, typed `high_with_decline_3pct` exactly when the minimal low
of that window is at least 3% below the event high. -/
theorem detect_extrema_events_sound (rows : List Candle) :
    ∀ e ∈ detectExtremaEvents rows,
      (e.category = "low_event" →
        10 ≤ e.index ∧ e.index + 40 < rows.length ∧
        isLocalMinAt rows e.index = true ∧
        (0 < (getCandle rows e.index).low →
          (e.etype = "low_with_rebound_3pct" ↔
            (getCandle rows e.index).low * (103 / 100) ≤
              listMax (((rows.drop e.index).take 30).map (·.high))))) ∧
      (e.category = "high_event" →
        10 ≤ e.index ∧ e.index + 40 < rows.length ∧
        isLocalMaxAt rows e.index = true ∧
        (0 < (getCandle rows e.index).high →
          (e.etype = "high_with_decline_3pct" ↔
            listMin (((rows.drop e.index).take 30).map (·.low)) ≤
              (getCandle rows e.index).high * (97 / 100)))) := by
  intro e he
  unfold detectExtremaEvents at he
  by_cases hlen : rows.length < 50
  · rw [if_pos hlen] at he
    cases he
  · rw [if_neg hlen] at he
    push_neg at hlen
    rcases List.mem_append.mp he with hmem | hmem
    · -- emitted by the low-event scan
      obtain ⟨i, hirange, hieq⟩ := List.mem_filterMap.mp hmem
      rw [List.mem_range'_1] at hirange
      have hidx : 10 ≤ i ∧ i + 40 < rows.length := by omega
      have hmin : isLocalMinAt rows i = true := by
        by_contra hx
        rw [if_neg hx] at hieq
        cases hieq
      rw [if_pos hmin] at hieq
      unfold analyzeLowEvent at hieq
      have hfut : ¬ ((rows.drop i).take 30).length < 10 := by
        rw [List.length_take, List.length_drop]
        omega
      rw [if_neg hfut] at hieq
      rw [Option.some.injEq] at hieq
      subst hieq
      refine ⟨fun _ => ⟨hidx.1, hidx.2, hmin, ?_⟩, fun hcat => by simp at hcat⟩
      intro hlow
      set lowPrice := (getCandle rows i).low with hlp
      set maxH := listMax (((rows.drop i).take 30).map (·.high)) with hmh
      have hiff : (3 ≤ (maxH - lowPrice) / lowPrice * 100) ↔
          (lowPrice * (103 / 100) ≤ maxH) := by
        rw [div_mul_eq_mul_div, le_div_iff hlow]
        constructor <;> intro h <;> linarith
      by_cases hreb : (maxH - lowPrice) / lowPrice * 100 ≥ 3
      · rw [if_pos hreb]
        exact iff_of_true rfl (hiff.mp hreb)
      · rw [if_neg hreb]
        refine iff_of_false ?_ (fun hx => hreb (hiff.mpr hx))
        split
        · simp
        · split
          · simp
          · simp
    · -- emitted by the high-event scan
      obtain ⟨i, hirange, hieq⟩ := List.mem_filterMap.mp hmem
      rw [List.mem_range'_1] at hirange
      have hidx : 10 ≤ i ∧ i + 40 < rows.length := by omega
      have hmax : isLocalMaxAt rows i = true := by
        by_contra hx
        rw [if_neg hx] at hieq
        cases hieq
      rw [if_pos hmax] at hieq
      unfold analyzeHighEvent at hieq
      have hfut : ¬ ((rows.drop i).take 30).length < 10 := by
        rw [List.length_take, List.length_drop]
        omega
      rw [if_neg hfut] at hieq
      rw [Option.some.injEq] at hieq
      subst hieq
      refine ⟨fun hcat => by simp at hcat, fun _ => ⟨hidx.1, hidx.2, hmax, ?_⟩⟩
      intro hhigh
      set highPrice := (getCandle rows i).high with hhp
      set minL := listMin (((rows.drop i).take 30).map (·.low)) with hml
      have hiff : (3 ≤ (highPrice - minL) / highPrice * 100) ↔
          (minL ≤ highPrice * (97 / 100)) := by
        rw [div_mul_eq_mul_div, le_div_iff hhigh]
        constructor <;> intro h <;> linarith
      by_cases hdec : (highPrice - minL) / highPrice * 100 ≥ 3
      · rw [if_pos hdec]
        exact iff_of_true rfl (hiff.mp hdec)
      · rw [if_neg hdec]
        refine iff_of_false ?_ (fun hx => hdec (hiff.mpr hx))
        split
        · simp
        · split
          · simp
          · simp

set_option maxRecDepth 4000 in
/-- Witness for C6 on a 51-row price series with a single strict local
minimum at index 10 followed by a full rebound. -/
theorem detect_extrema_events_sound_witness :
    sampleLowEvent ∈ detectExtremaEvents sampleRows ∧
    ((sampleLowEvent.category = "low_event" →
      10 ≤ sampleLowEvent.index ∧ sampleLowEvent.index + 40 < sampleRows.length ∧
      isLocalMinAt sampleRows sampleLowEvent.index = true ∧
      (0 < (getCandle sampleRows sampleLowEvent.index).low →
        (sampleLowEvent.etype = "low_with_rebound_3pct" ↔
          (getCandle sampleRows sampleLowEvent.index).low * (103 / 100) ≤
            listMax (((sampleRows.drop sampleLowEvent.index).take 30).map (·.high))))) ∧
    (sampleLowEvent.category = "high_event" →
      10 ≤ sampleLowEvent.index ∧ sampleLowEvent.index + 40 < sampleRows.length ∧
      isLocalMaxAt sampleRows sampleLowEvent.index = true ∧
      (0 < (getCandle sampleRows sampleLowEvent.index).high →
        (sampleLowEvent.etype = "high_with_decline_3pct" ↔
          listMin (((sampleRows.drop sampleLowEvent.index).take 30).map (·.low)) ≤
            (getCandle sampleRows sampleLowEvent.index).high * (97 / 100))))) := by
  have hmem : sampleLowEvent ∈ detectExtremaEvents sampleRows :=
    of_decide_eq_true (by with_unfolding_all rfl)
  exact ⟨hmem, detect_extrema_events_sound sampleRows sampleLowEvent hmem⟩

theorem thresholdLoop_mono (xs : List Rat) (events : List Bool) :
    ∀ (ts : List Rat) (st : Option Rat × Rat),
      st.2 ≤ (thresholdLoop xs events ts st).2
  | [], st => le_refl _
  | t :: ts, st => by
      rw [thresholdLoop]
      by_cases hc : (binarize xs t).count true > 10
      · rw [if_pos hc]
        cases hauc : aucScore events (binarize xs t) with
        | none => exact thresholdLoop_mono xs events ts st
        | some s =>
            dsimp only
            by_cases hs : s > st.2
            · rw [if_pos hs]
              exact le_trans (le_of_lt hs) (thresholdLoop_mono xs events ts (some t, s))
            · rw [if_neg hs]
              exact thresholdLoop_mono xs events ts st
      · rw [if_neg hc]
        exact thresholdLoop_mono xs events ts st

theorem thresholdLoop_ge (xs : List Rat) (events : List Bool) :
    ∀ (ts : List Rat) (st : Option Rat × Rat) (t : Rat), t ∈ ts →
      (binarize xs t).count true > 10 →
      ∀ s : Rat, aucScore events (binarize xs t) = some s →
        s ≤ (thresholdLoop xs events ts st).2
  | [], _, t, ht, _, _, _ => absurd ht (List.not_mem_nil t)
  | t' :: ts, st, t, ht, hcount, s, hauc => by
      rcases List.mem_cons.mp ht with rfl | hts
      · rw [thresholdLoop, if_pos hcount, hauc]
        dsimp only
        by_cases hs : s > st.2
        · rw [if_pos hs]
          exact le_trans (le_refl s |>.trans (le_of_eq rfl))
            (le_trans (le_of_eq rfl) (thresholdLoop_mono xs events ts (some t, s)))
        · rw [if_neg hs]
          exact le_trans (not_lt.mp hs) (thresholdLoop_mono xs events ts st)
      · rw [thresholdLoop]
        by_cases hc : (binarize xs t').count true > 10
        · rw [if_pos hc]
          cases hauc' : aucScore events (binarize xs t') with
          | none => exact thresholdLoop_ge xs events ts st t hts hcount s hauc
          | some s' =>
              dsimp only
              by_cases hs' : s' > st.2
              · rw [if_pos hs']
                exact thresholdLoop_ge xs events ts (some t', s') t hts hcount s hauc
              · rw [if_neg hs']
                exact thresholdLoop_ge xs events ts st t hts hcount s hauc
        · rw [if_neg hc]
          exact thresholdLoop_ge xs events ts st t hts hcount s hauc

theorem thresholdLoop_isSome (xs : List Rat) (events : List Bool) :
    ∀ (ts : List Rat) (t0 : Rat) (s0 : Rat),
      (thresholdLoop xs events ts (some t0, s0)).1.isSome = true
  | [], _, _ => rfl
  | t :: ts, t0, s0 => by
      rw [thresholdLoop]
      by_cases hc : (binarize xs t).count true > 10
      · rw [if_pos hc]
        cases hauc : aucScore events (binarize xs t) with
        | none => exact thresholdLoop_isSome xs events ts t0 s0
        | some s =>
            dsimp only
            by_cases hs : s > s0
            · rw [if_pos hs]
              exact thresholdLoop_isSome xs events ts t s
            · rw [if_neg hs]
              exact thresholdLoop_isSome xs events ts t0 s0
      · rw [if_neg hc]
        exact thresholdLoop_isSome xs events ts t0 s0

theorem thresholdLoop_some (xs : List Rat) (events : List Bool) :
    ∀ (ts : List Rat) (st : Option Rat × Rat) (t' : Rat),
      (thresholdLoop xs events ts st).1 = some t' →
      (st.1 = some t' ∧ (thresholdLoop xs events ts st).2 = st.2) ∨
      (t' ∈ ts ∧ (binarize xs t').count true > 10 ∧
        aucScore events (binarize xs t') = some (thresholdLoop xs events ts st).2)
  | [], st, t', h => Or.inl ⟨h, rfl⟩
  | t :: ts, st, t', h => by
      rw [thresholdLoop] at h ⊢
      by_cases hc : (binarize xs t).count true > 10
      · rw [if_pos hc] at h ⊢
        cases hauc : aucScore events (binarize xs t) with
        | none =>
            rw [hauc] at h
            dsimp only at h ⊢
            rcases thresholdLoop_some xs events ts st t' h with h' | h'
            · exact Or.inl h'
            · exact Or.inr ⟨List.mem_cons_of_mem t h'.1, h'.2⟩
        | some s =>
            rw [hauc] at h
            dsimp only at h ⊢
            by_cases hs : s > st.2
            · rw [if_pos hs] at h ⊢
              rcases thresholdLoop_some xs events ts (some t, s) t' h with h' | h'
              · rcases h' with ⟨h1, h2⟩
                rw [Option.some.injEq] at h1
                subst h1
                exact Or.inr ⟨List.mem_cons_self t ts, hc, by rw [hauc, h2]⟩
              · exact Or.inr ⟨List.mem_cons_of_mem t h'.1, h'.2⟩
            · rw [if_neg hs] at h ⊢
              rcases thresholdLoop_some xs events ts st t' h with h' | h'
              · exact Or.inl h'
              · exact Or.inr ⟨List.mem_cons_of_mem t h'.1, h'.2⟩
      · rw [if_neg hc] at h ⊢
        rcases thresholdLoop_some xs events ts st t' h with h' | h'
        · exact Or.inl h'
        · exact Or.inr ⟨List.mem_cons_of_mem t h'.1, h'.2⟩

theorem thresholdLoop_none (xs : List Rat) (events : List Bool) :
    ∀ (ts : List Rat) (st : Option Rat × Rat),
      (thresholdLoop xs events ts st).1 = none →
      (thresholdLoop xs events ts st).2 = st.2
  | [], st, _ => rfl
  | t :: ts, st, h => by
      rw [thresholdLoop] at h ⊢
      by_cases hc : (binarize xs t).count true > 10
      · rw [if_pos hc] at h ⊢
        cases hauc : aucScore events (binarize xs t) with
        | none =>
            rw [hauc] at h
            dsimp only at h ⊢
            exact thresholdLoop_none xs events ts st h
        | some s =>
            rw [hauc] at h
            dsimp only at h ⊢
            by_cases hs : s > st.2
            · rw [if_pos hs] at h
              have := thresholdLoop_isSome xs events ts t s
              rw [h] at this
              cases this
            · rw [if_neg hs] at h ⊢
              exact thresholdLoop_none xs events ts st h
      · rw [if_neg hc] at h ⊢
        exact thresholdLoop_none xs events ts st h

/-- **C4.** `_find_thresholds_for_type` records a `(threshold, roc_auc)`
pair for a field iff the field is not flat (sample std below 0.01) and some
candidate threshold — the 10th..90th percentiles in steps of 10 — makes the
binarized feature `|value| > threshold` activate on more than 10 rows with
a ROC-AUC strictly above 0.55; the recorded pair's threshold is a candidate
attaining the maximal ROC-AUC among the candidates with more than 10
activations, and flat fields are always skipped. -/
theorem find_thresholds_for_field_spec (xs : List Rat) (events : List Bool) :
    (stdBelowCutoff xs = true → findThresholdsForField xs events = none) ∧
    ((findThresholdsForField xs events).isSome = true ↔
      stdBelowCutoff xs = false ∧ ∃ t ∈ candidateThresholds xs,
        (binarize xs t).count true > 10 ∧
        ∃ s : Rat, aucScore events (binarize xs t) = some s ∧ s > 11 / 20) ∧
    (∀ t s : Rat, findThresholdsForField xs events = some (t, s) →
      t ∈ candidateThresholds xs ∧ (binarize xs t).count true > 10 ∧
      aucScore events (binarize xs t) = some s ∧ s > 11 / 20 ∧
      ∀ t' ∈ candidateThresholds xs, (binarize xs t').count true > 10 →
        ∀ s' : Rat, aucScore events (binarize xs t') = some s' → s' ≤ s) := by
  refine ⟨fun h => by rw [findThresholdsForField, if_pos h], ?_, ?_⟩ <;>
    by_cases hstd : stdBelowCutoff xs = true
  · rw [findThresholdsForField, if_pos hstd]
    refine iff_of_false (by simp) ?_
    rintro ⟨hfalse, _⟩
    rw [hstd] at hfalse
    cases hfalse
  · rw [findThresholdsForField, if_neg hstd]
    dsimp only
    cases hst1 : (thresholdLoop xs events (candidateThresholds xs) (none, 0)).1 with
    | none =>
        refine iff_of_false (by simp) ?_
        rintro ⟨_, t, htmem, hcount, s, hauc, hs⟩
        have hle := thresholdLoop_ge xs events (candidateThresholds xs) (none, 0)
          t htmem hcount s hauc
        have hz := thresholdLoop_none xs events (candidateThresholds xs) (none, 0) hst1
        rw [hz] at hle
        have : (11 : Rat) / 20 < 0 := lt_of_lt_of_le hs hle
        norm_num at this
    | some t₀ =>
        rcases thresholdLoop_some xs events (candidateThresholds xs) (none, 0) t₀ hst1
          with h' | h'
        · cases h'.1
        · dsimp only
          by_cases hsc : (thresholdLoop xs events (candidateThresholds xs)
              (none, 0)).2 > 11 / 20
          · rw [if_pos hsc]
            exact iff_of_true rfl
              ⟨eq_false_of_ne_true hstd, t₀, h'.1, h'.2.1, _, h'.2.2, hsc⟩
          · rw [if_neg hsc]
            refine iff_of_false (by simp) ?_
            rintro ⟨_, t, htmem, hcount, s, hauc, hs⟩
            exact hsc (lt_of_lt_of_le hs
              (thresholdLoop_ge xs events (candidateThresholds xs) (none, 0)
                t htmem hcount s hauc))
  · rw [findThresholdsForField, if_pos hstd]
    intro t s h
    cases h
  · rw [findThresholdsForField, if_neg hstd]
    dsimp only
    cases hst1 : (thresholdLoop xs events (candidateThresholds xs) (none, 0)).1 with
    | none =>
        intro t s h
        cases h
    | some t₀ =>
        rcases thresholdLoop_some xs events (candidateThresholds xs) (none, 0) t₀ hst1
          with h' | h'
        · cases h'.1
        · dsimp only
          by_cases hsc : (thresholdLoop xs events (candidateThresholds xs)
              (none, 0)).2 > 11 / 20
          · rw [if_pos hsc]
            intro t s h
            rw [Option.some.injEq, Prod.mk.injEq] at h
            obtain ⟨rfl, rfl⟩ := h
            refine ⟨h'.1, h'.2.1, h'.2.2, hsc, ?_⟩
            intro t' ht' hcount' s' hauc'
            exact thresholdLoop_ge xs events (candidateThresholds xs) (none, 0)
              t' ht' hcount' s' hauc'
          · rw [if_neg hsc]
            intro t s h
            cases h

set_option maxRecDepth 10000 in
/-- Witness for C4: on a column that is 0 for 15 rows and 10 for 15 rows,
with events exactly on the active rows, the analyzer records threshold 0
with a perfect ROC-AUC of 1. -/
theorem find_thresholds_for_field_spec_witness :
    findThresholdsForField sampleFieldData sampleFieldEvents = some (0, 1) ∧
    (0 : Rat) ∈ candidateThresholds sampleFieldData ∧
    (binarize sampleFieldData 0).count true > 10 ∧
    aucScore sampleFieldEvents (binarize sampleFieldData 0) = some 1 ∧
    (1 : Rat) > 11 / 20 := by
  have heq : findThresholdsForField sampleFieldData sampleFieldEvents = some (0, 1) := by
    with_unfolding_all rfl
  have h := (find_thresholds_for_field_spec sampleFieldData sampleFieldEvents).2.2 0 1 heq
  exact ⟨heq, h.1, h.2.1, h.2.2.1, h.2.2.2.1⟩


theorem calculateBlockingEffect_full (b e m : List Bool) (ofc : Nat)
    (s fpr aw aWith : Rat) (n : Nat)
    (h : calculateBlockingEffect b e m ofc = .full s fpr aw aWith n) :
    s = max 0 (aw - aWith) := by
  rw [calculateBlockingEffect] at h
  by_cases h5 : ofc < 5
  · rw [if_pos h5] at h
    cases h
  · rw [if_neg h5] at h
    dsimp only at h
    by_cases hc : m.count true > 10 ∧ (m.map fun b => !b).count true > 10
    · rw [if_pos hc] at h
      injection h with h1 h2 h3 h4 h5
      subst h1 h3 h4
      rfl
    · rw [if_neg hc] at h
      cases h

theorem blockerLoop_some_eq (fd : List Rat) (b e : List Bool) (ofc : Nat) :
    ∀ (ts : List Rat) (best : Option (BlockingResult × Rat)) (bs : Rat)
      (ba : BlockingResult) (t : Rat),
      blockerLoop fd b e ofc ts best bs = some (ba, t) →
      best = some (ba, t) ∨
      ba = calculateBlockingEffect b e (fd.map (fun x => decide (|x| > t))) ofc
  | [], best, bs, ba, t, h => Or.inl h
  | t' :: ts, best, bs, ba, t, h => by
      rw [blockerLoop] at h
      dsimp only at h
      by_cases hlt : (fd.map (fun x => decide (|x| > t'))).count true < 10
      · rw [if_pos hlt] at h
        exact blockerLoop_some_eq fd b e ofc ts best bs ba t h
      · rw [if_neg hlt] at h
        by_cases hgt : (calculateBlockingEffect b e
            (fd.map (fun x => decide (|x| > t'))) ofc).strength > bs
        · rw [if_pos hgt] at h
          rcases blockerLoop_some_eq fd b e ofc ts _ _ ba t h with h' | h'
          · rw [Option.some.injEq, Prod.mk.injEq] at h'
            obtain ⟨hba, hteq⟩ := h'
            subst hteq
            exact Or.inr hba.symm
          · exact Or.inr h'
        · rw [if_neg hgt] at h
          exact blockerLoop_some_eq fd b e ofc ts best bs ba t h

theorem zipWithVal_true {f : Bool → Rat → Bool} :
    ∀ (l : List Bool) (v : List Rat) (i : Nat),
      (List.zipWith f l v)[i]? = some true →
      ∃ s x, l[i]? = some s ∧ v[i]? = some x ∧ f s x = true
  | [], _, i, h => by simp at h
  | _ :: _, [], i, h => by simp at h
  | s :: l, x :: v, 0, h => by
      refine ⟨s, x, by simp, by simp, ?_⟩
      simpa using h
  | s :: l, x :: v, i + 1, h => by
      simp only [List.zipWith_cons_cons, List.getElem?_cons_succ] at h
      obtain ⟨s', x', h1, h2, h3⟩ := zipWithVal_true l v i h
      exact ⟨s', x', by rw [List.getElem?_cons_succ]; exact h1,
        by rw [List.getElem?_cons_succ]; exact h2, h3⟩

theorem applyBlockingRule_not_true (l : List Bool) (r : VetoRule) (i : Nat)
    (h : l[i]? ≠ some true) :
    (applyBlockingRule l r)[i]? ≠ some true := by
  intro hc
  rw [applyBlockingRule] at hc
  obtain ⟨s, x, h1, _, h3⟩ := zipWithVal_true l r.values i hc
  by_cases hx : |x| > r.threshold
  · rw [if_pos hx] at h3
    cases h3
  · rw [if_neg hx] at h3
    subst h3
    exact h h1

theorem applyBlockingRule_hit (l : List Bool) (r : VetoRule) (i : Nat) (x : Rat)
    (hx : r.values[i]? = some x) (ht : |x| > r.threshold) :
    (applyBlockingRule l r)[i]? ≠ some true := by
  intro hc
  rw [applyBlockingRule] at hc
  obtain ⟨s, x', h1, h2, h3⟩ := zipWithVal_true l r.values i hc
  rw [hx, Option.some.injEq] at h2
  subst h2
  rw [if_pos ht] at h3
  cases h3

theorem applyFalseFilter_not_true (l : List Bool) (v : List Rat) (i : Nat)
    (h : l[i]? ≠ some true) :
    (applyFalseFilter l v)[i]? ≠ some true := by
  intro hc
  rw [applyFalseFilter] at hc
  obtain ⟨s, x, h1, _, h3⟩ := zipWithVal_true l v i hc
  rw [Bool.and_eq_true] at h3
  rw [h3.1] at h1
  exact h h1

theorem foldl_blocking_not_true :
    ∀ (rules : List VetoRule) (l : List Bool) (i : Nat),
      l[i]? ≠ some true →
      (rules.foldl applyBlockingRule l)[i]? ≠ some true
  | [], _, _, h => h
  | r :: rules, l, i, h =>
      foldl_blocking_not_true rules (applyBlockingRule l r) i
        (applyBlockingRule_not_true l r i h)

theorem foldl_filter_not_true :
    ∀ (fs : List (List Rat)) (l : List Bool) (i : Nat),
      l[i]? ≠ some true →
      (fs.foldl applyFalseFilter l)[i]? ≠ some true
  | [], _, _, h => h
  | v :: fs, l, i, h =>
      foldl_filter_not_true fs (applyFalseFilter l v) i
        (applyFalseFilter_not_true l v i h)

/-- **C5.** A field selected as a blocking field anti-correlates with the
events: `_calculate_blocking_effect` reports a positive blocking strength
only when the baseline signal is strictly less accurate on the field-active
rows than on the inactive rows; a selected blocker (strength above 0.1)
comes with such a full analysis; and `_apply_veto_rules` forces the signal
to 0 at every position where a blocking rule field's absolute value exceeds
that rule's threshold. -/
theorem veto_blocking_anti_correlation
    (fieldData : List Rat) (baseline events : List Bool) (ofc : Nat)
    (signals : List Bool) (rules : List VetoRule) (filters : List (List Rat)) :
    (∀ (mask : List Bool) (s fpr aw aWith : Rat) (n : Nat),
      calculateBlockingEffect baseline events mask ofc = .full s fpr aw aWith n →
      0 < s → aWith < aw) ∧
    (isSelectedBlocker fieldData baseline events ofc = true →
      ∃ (t s fpr aw aWith : Rat) (n : Nat),
        analyzeFieldAsBlocker fieldData baseline events ofc =
          some (.full s fpr aw aWith n, t) ∧ s > 1 / 10 ∧ aWith < aw) ∧
    (∀ r ∈ rules, ∀ (i : Nat) (x : Rat),
      r.values[i]? = some x → |x| > r.threshold →
      (applyVetoRules signals rules filters)[i]? ≠ some true) := by
  refine ⟨?_, ?_, ?_⟩
  · intro mask s fpr aw aWith n h hs
    rw [calculateBlockingEffect_full baseline events mask ofc s fpr aw aWith n h] at hs
    rcases lt_max_iff.mp hs with h0 | h0
    · exact absurd h0 (lt_irrefl 0)
    · exact sub_pos.mp h0
  · intro hsel
    rw [isSelectedBlocker] at hsel
    cases han : analyzeFieldAsBlocker fieldData baseline events ofc with
    | none =>
        rw [han] at hsel
        cases hsel
    | some p =>
        obtain ⟨ba, t⟩ := p
        rw [han] at hsel
        dsimp only at hsel
        have hstr : ba.strength > 1 / 10 := of_decide_eq_true hsel
        rw [analyzeFieldAsBlocker] at han
        by_cases hstd : stdBelowCutoff fieldData = true
        · rw [if_pos hstd] at han
          cases han
        · rw [if_neg hstd] at han
          dsimp only at han
          rcases blockerLoop_some_eq fieldData baseline events ofc _ none 0 ba t han
            with h' | h'
          · cases h'
          · cases ba with
            | degenerate =>
                have : (0 : Rat) > 1 / 10 := hstr
                norm_num at this
            | full s fpr aw aWith n =>
                have hstr' : s > 1 / 10 := hstr
                have hmax := calculateBlockingEffect_full baseline events _ ofc
                  s fpr aw aWith n h'.symm
                have hpos : (0 : Rat) < s := lt_trans (by norm_num) hstr'
                have haw : aWith < aw := by
                  rw [hmax] at hpos
                  rcases lt_max_iff.mp hpos with h0 | h0
                  · exact absurd h0 (lt_irrefl 0)
                  · exact sub_pos.mp h0
                exact ⟨t, s, fpr, aw, aWith, n, rfl, hstr', haw⟩
  · intro r hr i x hx ht
    obtain ⟨l1, l2, rfl⟩ := List.append_of_mem hr
    rw [applyVetoRules]
    apply foldl_filter_not_true
    rw [List.foldl_append, List.foldl_cons]
    apply foldl_blocking_not_true
    exact applyBlockingRule_hit _ r i x hx ht

set_option maxRecDepth 10000 in
/-- Witness for C5: on the ramp field with events nowhere and the baseline
firing exactly on the field-active rows, the field is selected as a blocker
with a full anti-correlated analysis; and a concrete veto rule zeroes the
signal at a position whose field value exceeds the rule threshold. -/
theorem veto_blocking_anti_correlation_witness :
    isSelectedBlocker sampleVetoField sampleVetoBaseline sampleVetoEvents 5 = true ∧
    (∃ (t s fpr aw aWith : Rat) (n : Nat),
      analyzeFieldAsBlocker sampleVetoField sampleVetoBaseline sampleVetoEvents 5 =
        some (.full s fpr aw aWith n, t) ∧ s > 1 / 10 ∧ aWith < aw) ∧
    (applyVetoRules [true, true] [⟨[5, 0], 1⟩] [])[0]? ≠ some true := by
  have hsel : isSelectedBlocker sampleVetoField sampleVetoBaseline sampleVetoEvents 5
      = true := by with_unfolding_all rfl
  refine ⟨hsel, ?_, ?_⟩
  · exact (veto_blocking_anti_correlation sampleVetoField sampleVetoBaseline
      sampleVetoEvents 5 [] [] []).2.1 hsel
  · exact (veto_blocking_anti_correlation sampleVetoField sampleVetoBaseline
      sampleVetoEvents 5 [true, true] [⟨[5, 0], 1⟩] []).2.2 ⟨[5, 0], 1⟩
      (List.mem_singleton.mpr rfl) 0 5 rfl (by decide)


end TDS
